import Mathlib

/-!
# TileMap (core/src/geo/tile/TileMap.cpp)

A shallow embedding of the tile grid manager of `TileMap.cpp`.

* The pool `mTiles` holds shared pointers; a slot is identified by its position in
  the pool, and the recycle queue `toUpdate` of `update` holds such positions.
* A C++ `int` is a 32-bit two's complement integer: a value is an integer between
  `INT_MIN` and `INT_MAX`, and an arithmetic result outside that range wraps around
  (`wrap`), as the machine instructions of the unoptimised build do; the language
  itself gives such a result no meaning. A `for` loop is run with fuel, so that a
  loop whose test can never fail is a run that does not end.
* The second part of the file restates `update` in exact arithmetic (`updateZ`, over
  the window `inWindow`) and shows that the two agree as long as no `int` expression
  wraps (`update_eq_updateZ`); the properties of the window are proved there.
* The scene manager is external: the state keeps the ordered log of the
  `removeGeoEntity` / `addGeoEntity` calls issued to it. A second log records the
  invocations of `updateTile`.
* Physical tile size, world placement and mesh data are floating point values; a
  renderable records the inputs it was built from instead.
* A C++ exception or an operation without defined behaviour ends a run with a
  `Fault`.
-/

namespace dma

/-! ## Constants -/

/-- Source: `constexpr int SIZE = 13`. -/
def SIZE : Int := 13

/-- Source: `constexpr int OFFSET = SIZE / 2`. -/
def OFFSET : Int := SIZE / 2

/-- Source: `#define DEFAULT_TILE_DIFFUSE_MAP "damier"`. -/
def DEFAULT_TILE_DIFFUSE_MAP : String := "damier"

/-- The least value of an `int`. -/
def INT_MIN : Int := -2147483648

/-- The greatest value of an `int`. -/
def INT_MAX : Int := 2147483647

/-- The value of an `int` expression whose mathematical value is `v`: `v` itself
between `INT_MIN` and `INT_MAX`, and wrapped around modulo `2^32` outside. -/
def wrap (v : Int) : Int := (v + 2147483648) % 4294967296 - 2147483648

/-- Source: `TileMap::isInRange`; the four bounds are `int` expressions. -/
def isInRange (x y x0 y0 : Int) : Bool :=
  decide (x ≥ wrap (x0 - OFFSET))
    && decide (x ≤ wrap (x0 + OFFSET))
    && decide (y ≥ wrap (y0 - OFFSET))
    && decide (y ≤ wrap (y0 + OFFSET))

/-! ## Data model -/

/-- A polygon in the integer extent space of a vector tile. -/
abbrev Polygon := List (Int × Int)

/-- A feature of a vector tile layer, with its encoded geometry. -/
structure Feature where
  geometry : List Nat
deriving DecidableEq, Repr

/-- A geometry layer of a decoded vector tile. -/
structure VLayer where
  features : List Feature
  extent : Nat
deriving DecidableEq, Repr

/-- A decoded vector tile (`vector_tile::Tile`). -/
structure VectorTile where
  layers : List VLayer
deriving DecidableEq, Repr

/-- The diffuse texture bound to a raster material: decoded from a payload
(`createMap(image)`) or acquired from the resource cache by identifier. -/
inductive DiffuseMap where
  | decoded (payload : List Nat)
  | acquired (sid : String)
deriving DecidableEq, Repr

/-- A renderable (`GeoEntity`), recorded by what it was built from.
`building`: the mesh of one polygon scaled by tile size over `extent`, material
"building", placed at the tile that had coordinate `(x, y, z)`.
`rasterTile`: the quad with a fresh "tile" material, placed at the tile that had
coordinate `(x, y, z)`, with the `setDiffuseMap` calls made on its material. -/
inductive GeoEntity where
  | building (polygon : Polygon) (extent : Nat) (x y z : Int)
  | rasterTile (x y z : Int) (diffuse : List DiffuseMap)
deriving DecidableEq, Repr

/-- One grid slot (`Tile`): its coordinate and the renderables it owns. -/
structure Tile where
  x : Int
  y : Int
  z : Int
  mGeoEntities : List GeoEntity
deriving DecidableEq, Repr

/-- Modelled from the spec: the `Tile` constructor (Tile.cpp is not part of the
sources). "The full slot pool is allocated once at initialization with sentinel
coordinates (e.g. -1) meaning unset"; no renderables exist yet. -/
def Tile.new : Tile := ⟨-1, -1, -1, []⟩

/-- Modelled from the spec: `Tile::xyz` (Tile.cpp is not part of the sources), the
only call in `updateTile` between the loop that removes the slot's renderables from
the scene and the layer loop. "Remove every renderable currently owned by the slot
from the Scene Gateway, then clear the slot's renderable collection", "Set the slot's
coordinate to the target", and "stale renderables must never persist past a
coordinate reassignment": the coordinate is set and the collection is emptied. -/
def Tile.xyz (_t : Tile) (x y z : Int) : Tile :=
  { x := x, y := y, z := z, mGeoEntities := [] }

/-- Source: `Layer::Type`, the closed set of the switch in `updateTile`; `other` is
any value that reaches the `default:` branch. -/
inductive LayerType where
  | EXTRUDE | BACKGROUND | FILL | LINE | SYMBOL | RASTER | CIRCLE
  | other (tag : Nat)
deriving DecidableEq, Repr

/-- A style layer: type tag and source name. -/
structure Layer where
  type : LayerType
  source : String
deriving DecidableEq, Repr

/-- A source: the capability to fetch the payload bytes of a tile. -/
structure Source where
  fetch : Int → Int → Int → List Nat

/-- A style: ordered layers and the sources by name. -/
structure Style where
  layers : List Layer
  sources : List (String × Source)

/-- What ends a run abnormally. -/
inductive Fault where
  /-- The `default:` branch: `ExceptionUtils::runtime(TAG, "Unknown layer type: ...")`. -/
  | unknownLayerType
  /-- The call `getSources().at(name)` on a name that is not a key. -/
  | noSuchSource
  /-- The call `toUpdate.front()` on an empty list. -/
  | emptyQueue
  /-- The call `vectorTile.layers(0)` on a tile without layers. -/
  | noGeometryLayer
  /-- The access `polygons[0]` on an empty vector. -/
  | noPolygon
  /-- A slot position outside the pool. -/
  | noSuchSlot
  /-- A loop that used up its fuel: the run does not end. -/
  | outOfFuel
deriving DecidableEq, Repr

/-- Source: `mStyle.getSources().at(name)`. -/
def Style.sourceAt (st : Style) (name : String) : Except Fault Source :=
  match st.sources.lookup name with
  | some src => .ok src
  | none => .error .noSuchSource

/-- A call received by the scene manager; `slot` is the pool position of the tile
whose renderable is passed. -/
inductive SceneCall where
  | removeGeoEntity (slot : Nat) (ge : GeoEntity)
  | addGeoEntity (slot : Nat) (ge : GeoEntity)
deriving DecidableEq, Repr

/-- The pool position a scene call concerns. -/
def SceneCall.slot : SceneCall → Nat
  | .removeGeoEntity i _ => i
  | .addGeoEntity i _ => i

/-- One invocation `updateTile(tile, x, y, z)`, with the pool position of `tile`. -/
structure Rebuild where
  slot : Nat
  x : Int
  y : Int
  z : Int
deriving DecidableEq, Repr

/-- What the code takes from outside this file: the constant `TileMap::ZOOM`
(TileMap.hpp), the protobuf decoder and `GeometryMapper::polygons`. -/
structure Env where
  ZOOM : Int
  ParseFromArray : List Nat → VectorTile
  polygons : List Nat → List Polygon

/-- Source: the members of `TileMap`, with the logs of the calls made to the scene
manager (`scene`), of the `updateTile` invocations (`rebuilt`) and of the
`acquireMap` calls of `notifyTileAvailable` (`acquiredMaps`). -/
structure TileMap where
  mTiles : List Tile
  mLastX : Int
  mLastY : Int
  mNamespace : String
  mStyle : Style
  scene : List SceneCall
  rebuilt : List Rebuild
  acquiredMaps : List String

/-- Source: `enum Status`. -/
inductive Status where
  | STATUS_OK
  | STATUS_KO
deriving DecidableEq, Repr

/-! ## Operations -/

/-- Source: the constructor `TileMap::TileMap`, for a given default style. -/
def TileMap.construct (style : Style) : TileMap :=
  { mTiles := [], mLastX := -1, mLastY := -1, mNamespace := "", mStyle := style,
    scene := [], rebuilt := [], acquiredMaps := [] }

/-- Source: `TileMap::init`. -/
def TileMap.init (s : TileMap) : TileMap :=
  { s with
    mLastX := -1
    mLastY := -1
    mTiles := s.mTiles ++ List.replicate (SIZE * SIZE).toNat Tile.new }

/-- Source: `case Layer::Type::EXTRUDE` of `updateTile`: the renderables pushed for
the features of `vectorTile.layers(0)`, one loop iteration per feature. -/
def extrudeFeatures (env : Env) (extent : Nat) (x y z : Int) :
    List Feature → List GeoEntity → Except Fault (List GeoEntity)
  | [], ents => .ok ents
  | f :: fs, ents =>
    match env.polygons f.geometry with
    | [] => .error .noPolygon
    | p :: _ => extrudeFeatures env extent x y z fs (ents ++ [GeoEntity.building p extent x y z])

/-- Source: the body of the layer loop of `updateTile` for one layer; `ents` is
`tile->mGeoEntities` before, the result is `tile->mGeoEntities` after. -/
def layerStep (env : Env) (style : Style) (layer : Layer) (x y z : Int)
    (ents : List GeoEntity) : Except Fault (List GeoEntity) :=
  match layer.type with
  | .EXTRUDE =>
    match style.sourceAt layer.source with
    | .error e => .error e
    | .ok source =>
      let tileData := source.fetch x y z
      if tileData ≠ [] then
        match (env.ParseFromArray tileData).layers with
        | [] => .error .noGeometryLayer
        | l0 :: _ => extrudeFeatures env l0.extent x y z l0.features ents
      else .ok ents
  | .BACKGROUND => .ok ents
  | .FILL => .ok ents
  | .LINE => .ok ents
  | .SYMBOL => .ok ents
  | .RASTER =>
    match style.sourceAt layer.source with
    | .error e => .error e
    | .ok source =>
      let tileData := source.fetch x y z
      if tileData ≠ [] then
        .ok (ents ++ [GeoEntity.rasterTile x y z [DiffuseMap.decoded tileData]])
      else
        .ok (ents ++ [GeoEntity.rasterTile x y z [DiffuseMap.acquired DEFAULT_TILE_DIFFUSE_MAP]])
  | .CIRCLE => .ok ents
  | .other _ => .error .unknownLayerType

/-- Source: `for (auto& layer : mStyle.getLayers())` of `updateTile`. -/
def buildLayers (env : Env) (style : Style) (x y z : Int) :
    List Layer → List GeoEntity → Except Fault (List GeoEntity)
  | [], ents => .ok ents
  | layer :: rest, ents =>
    match layerStep env style layer x y z ents with
    | .error e => .error e
    | .ok ents1 => buildLayers env style x y z rest ents1

/-- Source: `TileMap::updateTile`, for the tile at pool position `i`: the removal
loop over `tile->mGeoEntities`, `tile->xyz(x, y, z)`, the layer loop, which pushes
onto `tile->mGeoEntities` as `xyz` left it, and the final loop that adds every
element of `tile->mGeoEntities` to the scene. -/
def updateTile (env : Env) (s : TileMap) (i : Nat) (x y z : Int) : Except Fault TileMap :=
  match s.mTiles[i]? with
  | none => .error .noSuchSlot
  | some tile =>
    let removed := tile.mGeoEntities.map (SceneCall.removeGeoEntity i)
    let tile1 := tile.xyz x y z
    match buildLayers env s.mStyle x y z s.mStyle.layers tile1.mGeoEntities with
    | .error e => .error e
    | .ok ents =>
      .ok { s with
            mTiles := s.mTiles.set i { tile1 with mGeoEntities := ents }
            scene := s.scene ++ removed ++ ents.map (SceneCall.addGeoEntity i)
            rebuilt := s.rebuilt ++ [⟨i, x, y, z⟩] }

/-- Source: the first loop of `update`: the pool positions of the tiles for which
`isInRange(tile->x, tile->y, x0, y0)` is false, in pool order. -/
def recycleQueue (tiles : List Tile) (x0 y0 : Int) : List Nat :=
  ((tiles.enumFrom 0).filter (fun it => !isInRange it.2.x it.2.y x0 y0)).map Prod.fst

/-- Source: the body of the inner loop of `update` at `(x, y)`, with the recycle
queue `q`. -/
def updateStep (env : Env) (z x y : Int) (st : TileMap) (q : List Nat) :
    Except Fault (TileMap × List Nat) :=
  if !isInRange x y st.mLastX st.mLastY then
    match q with
    | [] => .error .emptyQueue
    | i :: q1 =>
      match updateTile env st i x y z with
      | .error e => .error e
      | .ok st1 => .ok (st1, q1)
  else .ok (st, q)

/-- The rounds a `for` loop over an `int` counter is given: one more than the number
of `int` values, which a loop whose test can fail never uses up. -/
def LOOP_FUEL : Nat := 4294967297

/-- Source: the inner loop `for (int y = y0 - OFFSET; y <= y0 + OFFSET; ++y)` of
`update`, from the counter value `y` on; `hi` is the value of `y0 + OFFSET`. -/
def updateLoopY (env : Env) (z x hi : Int) :
    Nat → Int → TileMap → List Nat → Except Fault (TileMap × List Nat)
  | 0, _, _, _ => .error .outOfFuel
  | fuel + 1, y, st, q =>
    if y ≤ hi then
      match updateStep env z x y st q with
      | .error e => .error e
      | .ok (st1, q1) => updateLoopY env z x hi fuel (wrap (y + 1)) st1 q1
    else .ok (st, q)

/-- Source: the outer loop `for (int x = x0 - OFFSET; x <= x0 + OFFSET; ++x)` of
`update`, from the counter value `x` on; `hi` is the value of `x0 + OFFSET`. -/
def updateLoopX (env : Env) (z y0 hi : Int) :
    Nat → Int → TileMap → List Nat → Except Fault (TileMap × List Nat)
  | 0, _, _, _ => .error .outOfFuel
  | fuel + 1, x, st, q =>
    if x ≤ hi then
      match updateLoopY env z x (wrap (y0 + OFFSET)) LOOP_FUEL (wrap (y0 - OFFSET)) st q with
      | .error e => .error e
      | .ok (st1, q1) => updateLoopX env z y0 hi fuel (wrap (x + 1)) st1 q1
    else .ok (st, q)

/-- Source: `TileMap::update`. -/
def update (env : Env) (s : TileMap) (x0 y0 : Int) : Except Fault TileMap :=
  if x0 ≤ OFFSET ∨ y0 ≤ OFFSET then .ok s
  else
    let z := env.ZOOM
    if x0 = s.mLastX ∧ y0 = s.mLastY then .ok s
    else
      match updateLoopX env z y0 (wrap (x0 + OFFSET)) LOOP_FUEL (wrap (x0 - OFFSET)) s
          (recycleQueue s.mTiles x0 y0) with
      | .error e => .error e
      | .ok (st, _) => .ok { st with mLastX := x0, mLastY := y0 }

/-- Source: `TileMap::findTile`; the result is the pool position of the tile. -/
def findTile (s : TileMap) (x y z : Int) : Option Nat :=
  s.mTiles.findIdx? (fun tile => decide (tile.x = x) && decide (tile.y = y) && decide (tile.z = z))

/-- The decimal text written by `operator<<` for an `int`. -/
def dec : Int → String
  | Int.ofNat m => Nat.repr m
  | Int.negSucc m => "-" ++ Nat.repr (m + 1)

/-- Source: `TileMap::tileSid`. -/
def tileSid (s : TileMap) (x y z : Int) : String :=
  let ssid := ""
  let ssid := ssid ++ "tiles/"
  let ssid := if s.mNamespace ≠ "" then ssid ++ s.mNamespace ++ "/" else ssid
  ssid ++ dec z ++ "/" ++ dec x ++ "/" ++ dec y

/-- Source: `TileMap::notifyTileAvailable`. -/
def notifyTileAvailable (s : TileMap) (x y z : Int) : Status × TileMap :=
  match findTile s x y z with
  | none => (Status.STATUS_KO, s)
  | some _ =>
    let sid := tileSid s x y z
    (Status.STATUS_OK, { s with acquiredMaps := s.acquiredMaps ++ [sid] })

/-- The sequence of calls `update(x, y)` for the centres of `moves`, in order. -/
def run (env : Env) : TileMap → List (Int × Int) → Except Fault TileMap
  | s, [] => .ok s
  | s, (x, y) :: rest =>
    match update env s x y with
    | .error e => .error e
    | .ok s1 => run env s1 rest

/-- The pair `(x, y)` of every slot, in pool order. -/
def coords (s : TileMap) : List (Int × Int) :=
  s.mTiles.map (fun t => (t.x, t.y))

/-- Source: the loop `for (auto& t : mTiles) updateTile(t, t->x, t->y, t->z)` of
`setStyle`, over the pool positions still to visit. -/
def rebuildAll (env : Env) : List Nat → TileMap → Except Fault TileMap
  | [], st => .ok st
  | i :: rest, st =>
    match st.mTiles[i]? with
    | none => .error .noSuchSlot
    | some t =>
      match updateTile env st i t.x t.y t.z with
      | .error e => .error e
      | .ok st1 => rebuildAll env rest st1

/-- Source: `TileMap::setStyle`. -/
def setStyle (env : Env) (s : TileMap) (style : Style) : Except Fault TileMap :=
  rebuildAll env (List.range s.mTiles.length) { s with mStyle := style }

/-- Source: the loop of `TileMap::updateDiffuseMaps` over the tiles still to visit;
the result is the sequence of `onTileRequest(x, y, z)` calls made on the callbacks.
`hasMap` is the resource cache query `mResourceManager.hasMap`. -/
def updateDiffuseMapsLoop (hasMap : String → Bool) (s : TileMap) :
    List Tile → List (Int × Int × Int)
  | [] => []
  | tile :: rest =>
    let sid := tileSid s tile.x tile.y tile.z
    if hasMap sid then updateDiffuseMapsLoop hasMap s rest
    else (tile.x, tile.y, tile.z) :: updateDiffuseMapsLoop hasMap s rest

/-- Source: `TileMap::updateDiffuseMaps`. -/
def updateDiffuseMaps (hasMap : String → Bool) (s : TileMap) : List (Int × Int × Int) :=
  updateDiffuseMapsLoop hasMap s s.mTiles

/-- Source: `TileMap::setNamespace`; the result is the new state with the sequence of
`onTileRequest` calls made. `mTiles.front()` on an empty pool is a fault. -/
def setNamespace (hasMap : String → Bool) (s : TileMap) (ns : String) :
    Except Fault (TileMap × List (Int × Int × Int)) :=
  let s1 := { s with mNamespace := ns }
  match s1.mTiles.head? with
  | none => .error .noSuchSlot
  | some front =>
    if front.x ≠ -1 then .ok (s1, updateDiffuseMaps hasMap s1)
    else .ok (s1, [])

/-! ## The window in exact arithmetic -/

/-- The window centred on `(x0, y0)`: the square of the coordinates at most `OFFSET`
away from the centre on each axis, in exact arithmetic. -/
def inWindow (x y x0 y0 : Int) : Bool :=
  decide (x ≥ x0 - OFFSET)
    && decide (x ≤ x0 + OFFSET)
    && decide (y ≥ y0 - OFFSET)
    && decide (y ≤ y0 + OFFSET)

/-- The integers from `c - OFFSET` to `c + OFFSET`, in increasing order. -/
def span (c : Int) : List Int :=
  (List.range (2 * OFFSET + 1).toNat).map (fun (k : Nat) => c - OFFSET + (k : Int))

/-- The cells of the window centred on `(x0, y0)`, in the order of two nested loops:
`x` in the outer loop, `y` in the inner loop. -/
def cells (x0 y0 : Int) : List (Int × Int) :=
  (span x0).flatMap (fun x => (span y0).map (fun y => (x, y)))

/-- The pool positions of the tiles outside the window centred on `(x0, y0)`, in pool
order: `recycleQueue` in exact arithmetic. -/
def queueZ (tiles : List Tile) (x0 y0 : Int) : List Nat :=
  ((tiles.enumFrom 0).filter (fun it => !inWindow it.2.x it.2.y x0 y0)).map Prod.fst

/-- The body of the inner loop of `update` run over a list of coordinates, in exact
arithmetic. -/
def loopZ (env : Env) (z : Int) :
    List (Int × Int) → TileMap → List Nat → Except Fault (TileMap × List Nat)
  | [], st, q => .ok (st, q)
  | (x, y) :: rest, st, q =>
    if !inWindow x y st.mLastX st.mLastY then
      match q with
      | [] => .error .emptyQueue
      | i :: q1 =>
        match updateTile env st i x y z with
        | .error e => .error e
        | .ok st1 => loopZ env z rest st1 q1
    else loopZ env z rest st q

/-- The operation `update` in exact arithmetic: the two loops run over the cells of
the window centred on `(x0, y0)`. -/
def updateZ (env : Env) (s : TileMap) (x0 y0 : Int) : Except Fault TileMap :=
  if x0 ≤ OFFSET ∨ y0 ≤ OFFSET then .ok s
  else
    let z := env.ZOOM
    if x0 = s.mLastX ∧ y0 = s.mLastY then .ok s
    else
      match loopZ env z (cells x0 y0) s (queueZ s.mTiles x0 y0) with
      | .error e => .error e
      | .ok (st, _) => .ok { st with mLastX := x0, mLastY := y0 }

/-! ## Notions used to state the properties -/

/-- The coordinate pair of a slot that was never assigned. -/
def unset : Int × Int := (-1, -1)

/-- The cells of the window centred on `(x0, y0)` outside the window centred on
`(lx, ly)`, in the order of `cells`: the coordinates for which the second loop of
`update(x0, y0)` calls `updateTile` when the last centre is `(lx, ly)` and no `int`
expression wraps. -/
def entering (x0 y0 lx ly : Int) : List (Int × Int) :=
  (cells x0 y0).filter (fun c => !inWindow c.1 c.2 lx ly)

/-- Pool coordinates after the coordinates `es` were handed out, in order, to the
slots outside the window centred on `(x0, y0)`, in pool order. -/
def reassign (x0 y0 : Int) : List (Int × Int) → List (Int × Int) → List (Int × Int)
  | [], _ => []
  | p :: ps, es =>
    if inWindow p.1 p.2 x0 y0 then p :: reassign x0 y0 ps es
    else
      match es with
      | [] => p :: reassign x0 y0 ps []
      | e :: rest => e :: reassign x0 y0 ps rest

/-- The positions, counted from `n`, of the coordinates of `c` outside the window
centred on `(x0, y0)`. -/
def staleFrom (x0 y0 : Int) (n : Nat) (c : List (Int × Int)) : List Nat :=
  ((c.enumFrom n).filter (fun ic => !inWindow ic.2.1 ic.2.2 x0 y0)).map Prod.fst

/-- The grid invariant: the pool has `SIZE * SIZE` slots; the slots that were
assigned come first in the pool, hold pairwise distinct coordinates, all inside the
window centred on the last centre; the slots after them are unset. -/
def GridInv (s : TileMap) : Prop :=
  s.mTiles.length = 169 ∧
  ∃ occ n, coords s = occ ++ List.replicate n unset ∧ occ.Nodup ∧
    ∀ p ∈ occ, inWindow p.1 p.2 s.mLastX s.mLastY = true

/-- A centre for which no `int` expression of `update` wraps: one the guard rejects
before any arithmetic, or one whose coordinates are below `INT_MAX - OFFSET`. -/
def Safe (x y : Int) : Prop :=
  x ≤ OFFSET ∨ y ≤ OFFSET ∨ (x < INT_MAX - OFFSET ∧ y < INT_MAX - OFFSET)

/-- A last centre for which the bounds of `isInRange` do not wrap. -/
def LastSafe (s : TileMap) : Prop :=
  (INT_MIN + OFFSET ≤ s.mLastX ∧ s.mLastX ≤ INT_MAX - OFFSET) ∧
    (INT_MIN + OFFSET ≤ s.mLastY ∧ s.mLastY ≤ INT_MAX - OFFSET)

/-- The states reached from `init()` on a new `TileMap`, whatever its style, by a
sequence of `update` calls that all complete and whose centres are all `Safe`. -/
def Reachable (env : Env) (s : TileMap) : Prop :=
  ∃ style moves, (∀ m ∈ moves, Safe m.1 m.2) ∧
    run env (TileMap.construct style).init moves = .ok s

/-- Slot `i` is the same in `s1` as in `s`, and what `s1` adds to the rebuild log and
to the scene log of `s` does not concern slot `i`. -/
def Untouched (i : Nat) (s s1 : TileMap) : Prop :=
  s1.mTiles[i]? = s.mTiles[i]? ∧
    ∃ rb sc, s1.rebuilt = s.rebuilt ++ rb ∧ s1.scene = s.scene ++ sc ∧
      (∀ r ∈ rb, r.slot ≠ i) ∧ (∀ c ∈ sc, c.slot ≠ i)

/-- The fault that ended a run, if one did. -/
def faultOf {α : Type} (r : Except Fault α) : Option Fault :=
  match r with
  | .ok _ => none
  | .error e => some e

/-- A style whose layer loop completes for every coordinate and every collection it
starts from. -/
def FaultFree (env : Env) (style : Style) : Prop :=
  ∀ (x y z : Int) (ents : List GeoEntity),
    ∃ r, buildLayers env style x y z style.layers ents = .ok r

/-- The triple `(x, y, z)` of every slot, in pool order. -/
def xyzs (s : TileMap) : List (Int × Int × Int) :=
  s.mTiles.map (fun t => (t.x, t.y, t.z))

/-- The invocation `updateTile(tile, c.1, c.2, z)` for the tile at pool position `i`. -/
def rebuildOf (z : Int) (i : Nat) (c : Int × Int) : Rebuild := ⟨i, c.1, c.2, z⟩

/-- The value of a decimal digit character. -/
def digitVal (c : Char) : Nat := c.toNat - 48

/-- The number written by a sequence of decimal digit characters. -/
def decimalValue (ds : List Char) : Nat :=
  ds.foldl (fun acc c => 10 * acc + digitVal c) 0

/-! ## Concrete environments and states used by the examples -/

/-- The state of a completed run; `d` when the run ended with a fault. -/
def okOr (r : Except Fault TileMap) (d : TileMap) : TileMap :=
  match r with
  | .ok s => s
  | .error _ => d

/-- A style without layers. -/
def emptyStyle : Style := ⟨[], []⟩

/-- An environment with zoom level 19 and decoders that produce nothing. -/
def env0 : Env := ⟨19, fun _ => ⟨[]⟩, fun _ => []⟩

/-- The state produced by `init()` on a new `TileMap` with an empty style. -/
def initial : TileMap := (TileMap.construct emptyStyle).init

/-- A style with one RASTER layer whose source has no data anywhere. -/
def rasterStyle : Style := ⟨[⟨.RASTER, "img"⟩], [("img", ⟨fun _ _ _ => []⟩)]⟩

/-- The state produced by `init()` on a new `TileMap` with `rasterStyle`. -/
def initialRaster : TileMap := (TileMap.construct rasterStyle).init

/-- The state after `init()` and `update(20, 20)` under `rasterStyle`. -/
def rasterAt20 : TileMap := okOr (update env0 initialRaster 20 20) initialRaster

/-- The state after `init()`, `update(20, 20)` and `update(21, 20)` under
`rasterStyle`. -/
def rasterAt21 : TileMap := okOr (update env0 rasterAt20 21 20) rasterAt20

/-- A style with one EXTRUDE layer whose source has no data anywhere. -/
def extrudeEmptyStyle : Style := ⟨[⟨.EXTRUDE, "v"⟩], [("v", ⟨fun _ _ _ => []⟩)]⟩

/-- A renderable built earlier, for the coordinate `(7, 7, 19)`. -/
def oldEntity : GeoEntity := GeoEntity.rasterTile 7 7 19 [DiffuseMap.acquired "damier"]

/-- A pool of one slot at `(7, 7, 19)` that owns `oldEntity`, with
`extrudeEmptyStyle` installed. -/
def ownerState : TileMap :=
  { TileMap.construct extrudeEmptyStyle with mTiles := [⟨7, 7, 19, [oldEntity]⟩] }

/-- An environment whose decoder yields one geometry layer of extent 4096 with two
features, and one polygon for each feature. -/
def envTwoFeatures : Env :=
  ⟨19, fun _ => ⟨[⟨[⟨[1]⟩, ⟨[2]⟩], 4096⟩]⟩, fun g => [g.map (fun n => ((n : Int), (n : Int)))]⟩

/-- A style with one EXTRUDE layer whose source has a payload everywhere. -/
def extrudeStyle : Style := ⟨[⟨.EXTRUDE, "v"⟩], [("v", ⟨fun _ _ _ => [1]⟩)]⟩

/-- A pool of one unset slot, with `extrudeStyle` installed. -/
def freshSlotState : TileMap :=
  { TileMap.construct extrudeStyle with mTiles := [Tile.new] }

/-- The state after `init()` and `update(10, 10)` with an empty style. -/
def emptyAt10 : TileMap := okOr (update env0 initial 10 10) initial

/-- The state after `init()`, `update(30, 30)` and `update(10, 10)` under
`rasterStyle`: the 169 slots hold the window centred on `(10, 10)`. -/
def rasterAt10 : TileMap := okOr (run env0 initialRaster [(30, 30), (10, 10)]) initialRaster

/-- The state after `init()`, `update(20, 20)` and `update(2147483647, 20)` under
`rasterStyle`. -/
def rasterAtMax : TileMap :=
  okOr (run env0 initialRaster [(20, 20), (2147483647, 20)]) initialRaster

/-! ## General lemmas -/

theorem run_one (env : Env) (s s1 : TileMap) (x y : Int) (h : update env s x y = .ok s1) :
    run env s [(x, y)] = .ok s1 := by
  simp [run, h]

theorem OFFSET_eq : OFFSET = 6 := by decide

theorem eq_ok_okOr (r : Except Fault TileMap) (d : TileMap) (h : r.toBool = true) :
    r = .ok (okOr r d) := by
  cases r with
  | error e => cases h
  | ok s => rfl

/-- What a completed `updateTile` did. -/
theorem updateTile_ok (env : Env) (s s1 : TileMap) (i : Nat) (x y z : Int)
    (h : updateTile env s i x y z = .ok s1) :
    ∃ tile ents, s.mTiles[i]? = some tile ∧
      buildLayers env s.mStyle x y z s.mStyle.layers [] = .ok ents ∧
      s1 = { s with
             mTiles := s.mTiles.set i ⟨x, y, z, ents⟩
             scene := s.scene ++ tile.mGeoEntities.map (SceneCall.removeGeoEntity i)
                        ++ ents.map (SceneCall.addGeoEntity i)
             rebuilt := s.rebuilt ++ [⟨i, x, y, z⟩] } := by
  unfold updateTile at h
  split at h
  · cases h
  · rename_i tile htile
    dsimp only [Tile.xyz] at h
    split at h
    · cases h
    · rename_i ents hents
      cases h
      exact ⟨tile, ents, htile, hents, rfl⟩

theorem mem_queueZ {tiles : List Tile} {x0 y0 : Int} {j : Nat}
    (h : j ∈ queueZ tiles x0 y0) :
    ∃ t, tiles[j]? = some t ∧ inWindow t.x t.y x0 y0 = false := by
  unfold queueZ at h
  rw [List.mem_map] at h
  obtain ⟨⟨j1, t⟩, hmem, hj⟩ := h
  rw [List.mem_filter] at hmem
  obtain ⟨hmem, hout⟩ := hmem
  simp only at hj
  subst hj
  rw [List.mk_mem_enumFrom_iff_le_and_getElem?_sub] at hmem
  refine ⟨t, by simpa using hmem.2, by simpa using hout⟩

/-- The second loop of `updateZ` touches only slots taken from the queue. -/
theorem loopZ_frame (env : Env) (z : Int) (i : Nat) :
    ∀ (cs : List (Int × Int)) (st : TileMap) (q : List Nat) (st1 : TileMap) (q1 : List Nat),
      i ∉ q → loopZ env z cs st q = .ok (st1, q1) →
      st1.mTiles[i]? = st.mTiles[i]? ∧
      ∃ rb sc, st1.rebuilt = st.rebuilt ++ rb ∧ st1.scene = st.scene ++ sc ∧
        (∀ r ∈ rb, r.slot ≠ i) ∧ (∀ c ∈ sc, c.slot ≠ i) := by
  intro cs
  induction cs with
  | nil =>
    intro st q st1 q1 _ h
    simp only [loopZ] at h
    cases h
    exact ⟨rfl, [], [], by simp, by simp, by simp, by simp⟩
  | cons c rest ih =>
    intro st q st1 q1 hq h
    obtain ⟨x, y⟩ := c
    simp only [loopZ] at h
    split at h
    · split at h
      · cases h
      · rename_i j q2
        split at h
        · cases h
        · rename_i st2 hupd
          have hji : j ≠ i := fun e => hq (by simp [e])
          have hq2 : i ∉ q2 := fun e => hq (by simp [e])
          obtain ⟨tile, ents, _, _, hst2⟩ := updateTile_ok env st st2 j x y z hupd
          obtain ⟨ht, rb, sc, hrb, hsc, hrb1, hsc1⟩ := ih st2 q2 st1 q1 hq2 h
          refine ⟨?_, ⟨j, x, y, z⟩ :: rb,
            tile.mGeoEntities.map (SceneCall.removeGeoEntity j)
              ++ ents.map (SceneCall.addGeoEntity j) ++ sc, ?_, ?_, ?_, ?_⟩
          · rw [ht, hst2]
            simp [List.getElem?_set_ne hji]
          · rw [hrb, hst2]; simp
          · rw [hsc, hst2]; simp
          · intro r hr
            rcases List.mem_cons.1 hr with h1 | h1
            · subst h1; exact hji
            · exact hrb1 r h1
          · intro c hc
            simp only [List.mem_append, List.mem_map] at hc
            rcases hc with (⟨g, _, rfl⟩ | ⟨g, _, rfl⟩) | h1
            · exact hji
            · exact hji
            · exact hsc1 c h1
    · exact ih st q st1 q1 hq h

theorem updateZ_rejected (env : Env) (s : TileMap) (x y : Int)
    (h : x ≤ OFFSET ∨ y ≤ OFFSET) : updateZ env s x y = .ok s := by
  unfold updateZ
  rw [if_pos h]

/-- The identifier of `tileSid` written as one concatenation. -/
theorem tileSid_eq (s : TileMap) (x y z : Int) :
    tileSid s x y z =
      if s.mNamespace = "" then "tiles/" ++ dec z ++ "/" ++ dec x ++ "/" ++ dec y
      else "tiles/" ++ s.mNamespace ++ "/" ++ dec z ++ "/" ++ dec x ++ "/" ++ dec y := by
  unfold tileSid
  by_cases h : s.mNamespace = ""
  · simp [h]
  · simp [h, String.append_assoc]

theorem inWindow_iff (x y x0 y0 : Int) :
    inWindow x y x0 y0 = true ↔ (x0 - 6 ≤ x ∧ x ≤ x0 + 6) ∧ (y0 - 6 ≤ y ∧ y ≤ y0 + 6) := by
  unfold inWindow
  rw [OFFSET_eq]
  simp only [Bool.and_eq_true, decide_eq_true_eq, ge_iff_le]
  tauto

theorem mem_span (c v : Int) : v ∈ span c ↔ c - 6 ≤ v ∧ v ≤ c + 6 := by
  unfold span
  rw [OFFSET_eq]
  have h13 : ((2 : Int) * 6 + 1).toNat = 13 := by decide
  rw [h13]
  simp only [List.mem_map, List.mem_range]
  constructor
  · rintro ⟨k, hk, rfl⟩
    omega
  · intro h
    refine ⟨(v - (c - 6)).toNat, ?_, ?_⟩ <;> omega

theorem span_nodup (c : Int) : (span c).Nodup := by
  unfold span
  apply List.Nodup.map _ (List.nodup_range _)
  intro a b h
  simpa using h

theorem span_length (c : Int) : (span c).length = 13 := by
  unfold span
  rw [OFFSET_eq]
  simp

theorem cells_eq_product (x0 y0 : Int) : cells x0 y0 = span x0 ×ˢ span y0 := rfl

theorem mem_cells (x0 y0 : Int) (p : Int × Int) :
    p ∈ cells x0 y0 ↔ inWindow p.1 p.2 x0 y0 = true := by
  obtain ⟨x, y⟩ := p
  rw [cells_eq_product, List.mem_product, mem_span, mem_span, inWindow_iff]

theorem cells_nodup (x0 y0 : Int) : (cells x0 y0).Nodup := by
  rw [cells_eq_product]
  exact (span_nodup x0).product (span_nodup y0)

theorem cells_length (x0 y0 : Int) : (cells x0 y0).length = 169 := by
  rw [cells_eq_product, List.length_product, span_length, span_length]

theorem unset_stale (x0 y0 : Int) (h : ¬ (x0 ≤ OFFSET ∨ y0 ≤ OFFSET)) :
    inWindow unset.1 unset.2 x0 y0 = false := by
  rw [OFFSET_eq] at h
  rw [Bool.eq_false_iff]
  intro hin
  rw [inWindow_iff] at hin
  simp only [unset] at hin
  omega

/-- Both windows lose as many cells to each other. -/
theorem entering_length (x0 y0 lx ly : Int) :
    (entering x0 y0 lx ly).length = (entering lx ly x0 y0).length := by
  unfold entering
  have h1 := List.length_eq_length_filter_add (l := cells x0 y0) (fun c => inWindow c.1 c.2 lx ly)
  have h2 := List.length_eq_length_filter_add (l := cells lx ly) (fun c => inWindow c.1 c.2 x0 y0)
  have hperm : ((cells x0 y0).filter (fun c => inWindow c.1 c.2 lx ly)).Perm
      ((cells lx ly).filter (fun c => inWindow c.1 c.2 x0 y0)) := by
    rw [List.perm_ext_iff_of_nodup ((cells_nodup _ _).filter _) ((cells_nodup _ _).filter _)]
    intro p
    simp only [List.mem_filter, mem_cells]
    tauto
  have h3 := hperm.length_eq
  rw [cells_length] at h1 h2
  omega

theorem reassign_nil_right (x0 y0 : Int) (c : List (Int × Int)) : reassign x0 y0 c [] = c := by
  induction c with
  | nil => rfl
  | cons p ps ih =>
    simp only [reassign]
    split <;> rw [ih]

theorem reassign_length (x0 y0 : Int) :
    ∀ (c es : List (Int × Int)), (reassign x0 y0 c es).length = c.length := by
  intro c
  induction c with
  | nil => intro es; rfl
  | cons p ps ih =>
    intro es
    simp only [reassign]
    split
    · simp [ih]
    · cases es <;> simp [ih]

theorem staleFrom_cons (x0 y0 : Int) (n : Nat) (p : Int × Int) (ps : List (Int × Int)) :
    staleFrom x0 y0 n (p :: ps) =
      if inWindow p.1 p.2 x0 y0 then staleFrom x0 y0 (n + 1) ps
      else n :: staleFrom x0 y0 (n + 1) ps := by
  unfold staleFrom
  by_cases h : inWindow p.1 p.2 x0 y0 = true
  · simp [List.enumFrom_cons, List.filter_cons, h]
  · simp [List.enumFrom_cons, List.filter_cons, h]

/-- Handing a coordinate of the new window to the first queued slot: the queue loses
its head, and the remaining coordinates go where they would have gone. -/
theorem staleFrom_set (x0 y0 : Int) (e : Int × Int) (he : inWindow e.1 e.2 x0 y0 = true) :
    ∀ (c : List (Int × Int)) (n i : Nat) (q : List Nat) (es : List (Int × Int)),
      staleFrom x0 y0 n c = i :: q →
      n ≤ i ∧ staleFrom x0 y0 n (c.set (i - n) e) = q ∧
        reassign x0 y0 c (e :: es) = reassign x0 y0 (c.set (i - n) e) es := by
  intro c
  induction c with
  | nil =>
    intro n i q es h
    simp [staleFrom] at h
  | cons p ps ih =>
    intro n i q es h
    rw [staleFrom_cons] at h
    by_cases hp : inWindow p.1 p.2 x0 y0 = true
    · rw [if_pos hp] at h
      obtain ⟨hle, hq, hre⟩ := ih (n + 1) i q es h
      have hsub : i - n = (i - (n + 1)) + 1 := by omega
      rw [hsub, List.set_cons_succ]
      refine ⟨by omega, ?_, ?_⟩
      · rw [staleFrom_cons, if_pos hp]; exact hq
      · simp only [reassign, hp, if_true]
        rw [hre]
    · rw [if_neg hp] at h
      cases h
      simp only [Nat.sub_self, List.set_cons_zero]
      refine ⟨le_refl _, ?_, ?_⟩
      · rw [staleFrom_cons, if_pos he]
      · simp only [reassign, hp, he, if_true]
        simp

theorem queueZ_eq (tiles : List Tile) (x0 y0 : Int) :
    queueZ tiles x0 y0 = staleFrom x0 y0 0 (tiles.map (fun t => (t.x, t.y))) := by
  unfold queueZ staleFrom
  rw [List.enumFrom_map, List.filter_map, List.map_map]
  rfl

theorem updateTile_coords (env : Env) (s s1 : TileMap) (i : Nat) (x y z : Int)
    (h : updateTile env s i x y z = .ok s1) :
    coords s1 = (coords s).set i (x, y) ∧ s1.mLastX = s.mLastX ∧ s1.mLastY = s.mLastY := by
  obtain ⟨tile, ents, _, _, hs1⟩ := updateTile_ok env s s1 i x y z h
  subst hs1
  refine ⟨?_, rfl, rfl⟩
  simp [coords, List.map_set]

/-- The coordinates left by the second loop of `updateZ`. -/
theorem loopZ_coords (env : Env) (z x0 y0 : Int) :
    ∀ (cs : List (Int × Int)) (st : TileMap) (q : List Nat) (st1 : TileMap) (q1 : List Nat),
      (∀ c ∈ cs, inWindow c.1 c.2 x0 y0 = true) →
      q = staleFrom x0 y0 0 (coords st) →
      loopZ env z cs st q = .ok (st1, q1) →
      coords st1 = reassign x0 y0 (coords st)
          (cs.filter (fun c => !inWindow c.1 c.2 st.mLastX st.mLastY)) ∧
        st1.mLastX = st.mLastX ∧ st1.mLastY = st.mLastY := by
  intro cs
  induction cs with
  | nil =>
    intro st q st1 q1 _ _ h
    simp only [loopZ] at h
    cases h
    simp [reassign_nil_right]
  | cons c rest ih =>
    intro st q st1 q1 hcs hq h
    obtain ⟨x, y⟩ := c
    have hrest : ∀ c ∈ rest, inWindow c.1 c.2 x0 y0 = true :=
      fun c hc => hcs c (List.mem_cons_of_mem _ hc)
    have hxy : inWindow x y x0 y0 = true := hcs (x, y) (List.mem_cons_self _ _)
    simp only [loopZ] at h
    split at h
    · rename_i hnew
      split at h
      · cases h
      · rename_i i q2
        split at h
        · cases h
        · rename_i st2 hupd
          obtain ⟨hc2, hlx, hly⟩ := updateTile_coords env st st2 i x y z hupd
          obtain ⟨_, hq2, hre⟩ := staleFrom_set x0 y0 (x, y) hxy (coords st) 0 i q2
            (rest.filter (fun c => !inWindow c.1 c.2 st.mLastX st.mLastY)) hq.symm
          rw [Nat.sub_zero] at hq2 hre
          obtain ⟨h1, h2, h3⟩ := ih st2 q2 st1 q1 hrest (by rw [hc2, hq2]) h
          refine ⟨?_, by rw [h2, hlx], by rw [h3, hly]⟩
          rw [h1, hlx, hly, hc2, List.filter_cons, if_pos hnew, hre]
    · rename_i hnew
      obtain ⟨h1, h2, h3⟩ := ih st q st1 q1 hrest hq h
      refine ⟨?_, h2, h3⟩
      rw [h1, List.filter_cons, if_neg hnew]

/-- The coordinates and the centre left by `updateZ`. -/
theorem updateZ_coords (env : Env) (s s1 : TileMap) (x0 y0 : Int)
    (hacc : ¬ (x0 ≤ OFFSET ∨ y0 ≤ OFFSET))
    (hmove : ¬ (x0 = s.mLastX ∧ y0 = s.mLastY))
    (h : updateZ env s x0 y0 = .ok s1) :
    coords s1 = reassign x0 y0 (coords s) (entering x0 y0 s.mLastX s.mLastY) ∧
      s1.mLastX = x0 ∧ s1.mLastY = y0 := by
  unfold updateZ at h
  rw [if_neg hacc] at h
  dsimp only at h
  rw [if_neg hmove] at h
  split at h
  · cases h
  · rename_i st q1 hloop
    cases h
    obtain ⟨h1, _, _⟩ := loopZ_coords env env.ZOOM x0 y0 (cells x0 y0) s _ st q1
      (fun c hc => (mem_cells x0 y0 c).1 hc) (queueZ_eq _ _ _) hloop
    exact ⟨h1, rfl, rfl⟩

/-- The slots outside the window centred on `(x0, y0)` among `a`. -/
theorem reassign_append (x0 y0 : Int) :
    ∀ (a b es : List (Int × Int)),
      reassign x0 y0 (a ++ b) es =
        reassign x0 y0 a es ++
          reassign x0 y0 b (es.drop (a.filter (fun p => !inWindow p.1 p.2 x0 y0)).length) := by
  intro a
  induction a with
  | nil => intro b es; simp [reassign]
  | cons p ps ih =>
    intro b es
    have happ : ∀ l : List (Int × Int), ps.append l = ps ++ l := fun _ => rfl
    by_cases hp : inWindow p.1 p.2 x0 y0 = true
    · simp only [List.cons_append, reassign, hp, if_true, List.filter_cons, Bool.not_true,
        Bool.false_eq_true, if_false]
      rw [happ, ih]
    · cases es with
      | nil =>
        simp only [List.cons_append, reassign, hp, Bool.false_eq_true, if_false, List.drop_nil]
        rw [happ, ih]
        simp
      | cons e rest =>
        simp only [List.cons_append, reassign, hp, Bool.false_eq_true, if_false,
          List.filter_cons, Bool.not_eq_true', Bool.not_eq_true, if_true]
        rw [happ, ih]
        simp [hp]

theorem reassign_replicate_unset (x0 y0 : Int)
    (hu : inWindow unset.1 unset.2 x0 y0 = false) :
    ∀ (n : Nat) (es : List (Int × Int)),
      reassign x0 y0 (List.replicate n unset) es =
        es.take n ++ List.replicate (n - es.length) unset := by
  intro n
  induction n with
  | zero => intro es; simp [reassign]
  | succ k ih =>
    intro es
    cases es with
    | nil =>
      simp only [List.replicate_succ, reassign, hu, Bool.false_eq_true, if_false]
      rw [ih]
      simp [List.replicate_succ]
    | cons e rest =>
      simp only [List.replicate_succ, reassign, hu, Bool.false_eq_true, if_false]
      rw [ih]
      simp

/-- When the coordinates to hand out are at least as many as the slots outside the
window, the slots hold afterwards the coordinates that were inside the window and the
first coordinates handed out. -/
theorem reassign_perm (x0 y0 : Int) :
    ∀ (a es : List (Int × Int)),
      (a.filter (fun p => !inWindow p.1 p.2 x0 y0)).length ≤ es.length →
      (reassign x0 y0 a es).Perm
        (a.filter (fun p => inWindow p.1 p.2 x0 y0) ++
          es.take (a.filter (fun p => !inWindow p.1 p.2 x0 y0)).length) := by
  intro a
  induction a with
  | nil => intro es _; simp [reassign]
  | cons p ps ih =>
    intro es hle
    by_cases hp : inWindow p.1 p.2 x0 y0 = true
    · simp only [List.filter_cons, hp, Bool.not_true, Bool.false_eq_true, if_false, if_true,
        reassign, List.cons_append] at hle ⊢
      exact (ih es hle).cons p
    · have hp1 : inWindow p.1 p.2 x0 y0 = false := by simpa using hp
      cases es with
      | nil => simp [List.filter_cons, hp1] at hle
      | cons e rest =>
        simp only [List.filter_cons, hp1, Bool.not_false, if_true, List.length_cons,
          Nat.add_le_add_iff_right, Bool.false_eq_true, if_false, reassign,
          List.take_succ_cons] at hle ⊢
        exact ((ih rest hle).cons e).trans List.perm_middle.symm

theorem entering_nodup (x0 y0 lx ly : Int) : (entering x0 y0 lx ly).Nodup :=
  (cells_nodup x0 y0).filter _

theorem mem_entering (x0 y0 lx ly : Int) (p : Int × Int) :
    p ∈ entering x0 y0 lx ly ↔
      inWindow p.1 p.2 x0 y0 = true ∧ inWindow p.1 p.2 lx ly = false := by
  unfold entering
  simp [List.mem_filter, mem_cells]

/-- The assigned slots that leave the window are at most as many as the cells that
enter it. -/
theorem stale_le_entering (x0 y0 lx ly : Int) (occ : List (Int × Int)) (hnd : occ.Nodup)
    (hin : ∀ p ∈ occ, inWindow p.1 p.2 lx ly = true) :
    (occ.filter (fun p => !inWindow p.1 p.2 x0 y0)).length ≤ (entering x0 y0 lx ly).length := by
  rw [entering_length]
  apply List.Subperm.length_le
  apply List.Nodup.subperm (hnd.filter _)
  intro p hp
  rw [List.mem_filter] at hp
  rw [mem_entering]
  exact ⟨hin p hp.1, by simpa using hp.2⟩

theorem coords_length (s : TileMap) : (coords s).length = s.mTiles.length := by
  simp [coords]

/-- One `updateZ` call keeps the grid invariant. -/
theorem GridInv_update (env : Env) (s s1 : TileMap) (x0 y0 : Int) (hinv : GridInv s)
    (h : updateZ env s x0 y0 = .ok s1) : GridInv s1 := by
  by_cases hacc : x0 ≤ OFFSET ∨ y0 ≤ OFFSET
  · rw [updateZ_rejected env s x0 y0 hacc] at h
    cases h
    exact hinv
  by_cases hmove : x0 = s.mLastX ∧ y0 = s.mLastY
  · unfold updateZ at h
    rw [if_neg hacc] at h
    dsimp only at h
    rw [if_pos hmove] at h
    cases h
    exact hinv
  obtain ⟨hc, hlx, hly⟩ := updateZ_coords env s s1 x0 y0 hacc hmove h
  obtain ⟨hlen, occ, n, hocc, hnd, hin⟩ := hinv
  have hm := stale_le_entering x0 y0 s.mLastX s.mLastY occ hnd hin
  have hu := unset_stale x0 y0 hacc
  refine ⟨?_, ?_⟩
  · rw [← coords_length, hc, reassign_length, coords_length, hlen]
  · rw [hocc, reassign_append, reassign_replicate_unset x0 y0 hu, ← List.append_assoc] at hc
    refine ⟨_, _, hc, ?_, ?_⟩
    · have hperm := (reassign_perm x0 y0 occ (entering x0 y0 s.mLastX s.mLastY) hm).append_right
        (List.take n (List.drop (occ.filter (fun p => !inWindow p.1 p.2 x0 y0)).length
          (entering x0 y0 s.mLastX s.mLastY)))
      rw [List.append_assoc, ← List.take_add] at hperm
      rw [hperm.nodup_iff]
      refine List.Nodup.append (hnd.filter _) ((entering_nodup _ _ _ _).sublist (List.take_sublist _ _)) ?_
      intro p hp1 hp2
      have h1 := hin p (List.mem_filter.1 hp1).1
      have h2 := ((mem_entering _ _ _ _ p).1 (List.mem_of_mem_take hp2)).2
      rw [h1] at h2
      cases h2
    · intro p hp
      rw [hlx, hly]
      rcases List.mem_append.1 hp with hp | hp
      · have hperm := reassign_perm x0 y0 occ (entering x0 y0 s.mLastX s.mLastY) hm
        rcases List.mem_append.1 (hperm.mem_iff.1 hp) with h1 | h1
        · simpa using (List.mem_filter.1 h1).2
        · exact ((mem_entering _ _ _ _ p).1 (List.mem_of_mem_take h1)).1
      · exact ((mem_entering _ _ _ _ p).1 (List.mem_of_mem_drop (List.mem_of_mem_take hp))).1

theorem GridInv_init (style : Style) : GridInv (TileMap.construct style).init := by
  have h : (SIZE * SIZE).toNat = 169 := by decide
  refine ⟨?_, [], 169, ?_, List.nodup_nil, fun p hp => absurd hp (List.not_mem_nil p)⟩
  · show ([] ++ List.replicate (SIZE * SIZE).toNat Tile.new).length = 169
    rw [h, List.nil_append, List.length_replicate]
  · show List.map (fun t : Tile => (t.x, t.y))
        ([] ++ List.replicate (SIZE * SIZE).toNat Tile.new) = [] ++ List.replicate 169 unset
    rw [h, List.nil_append, List.nil_append, List.map_replicate]
    rfl

/-- Under the grid invariant a slot is unset or inside the window of the last centre. -/
theorem GridInv_slot (s : TileMap) (hinv : GridInv s) (t : Tile) (ht : t ∈ s.mTiles) :
    (t.x, t.y) = unset ∨ inWindow t.x t.y s.mLastX s.mLastY = true := by
  obtain ⟨_, occ, n, hocc, _, hin⟩ := hinv
  have hmem : (t.x, t.y) ∈ coords s := List.mem_map.2 ⟨t, ht, rfl⟩
  rw [hocc] at hmem
  rcases List.mem_append.1 hmem with h1 | h1
  · exact Or.inr (hin _ h1)
  · exact Or.inl (List.eq_of_mem_replicate h1)

theorem updateZ_centre (env : Env) (s s1 : TileMap) (x0 y0 : Int)
    (hacc : OFFSET < x0 ∧ OFFSET < y0) (h : updateZ env s x0 y0 = .ok s1) :
    s1.mLastX = x0 ∧ s1.mLastY = y0 := by
  have hacc1 : ¬ (x0 ≤ OFFSET ∨ y0 ≤ OFFSET) := by omega
  by_cases hmove : x0 = s.mLastX ∧ y0 = s.mLastY
  · unfold updateZ at h
    rw [if_neg hacc1] at h
    dsimp only at h
    rw [if_pos hmove] at h
    cases h
    exact ⟨hmove.1.symm, hmove.2.symm⟩
  · exact (updateZ_coords env s s1 x0 y0 hacc1 hmove h).2

theorem extrudeFeatures_ok (env : Env) (extent : Nat) (x y z : Int) :
    ∀ (fs : List Feature) (ents : List GeoEntity),
      (∀ f ∈ fs, env.polygons f.geometry ≠ []) →
      extrudeFeatures env extent x y z fs ents =
        .ok (ents ++ fs.map (fun f =>
          GeoEntity.building ((env.polygons f.geometry).headD []) extent x y z)) := by
  intro fs
  induction fs with
  | nil => intro ents _; simp [extrudeFeatures]
  | cons f rest ih =>
    intro ents h
    have hf := h f (List.mem_cons_self _ _)
    have hrest : ∀ g ∈ rest, env.polygons g.geometry ≠ [] :=
      fun g hg => h g (List.mem_cons_of_mem _ hg)
    simp only [extrudeFeatures]
    split
    · rename_i hnil
      exact absurd hnil hf
    · rename_i p ps hp
      rw [ih _ hrest]
      simp [hp]

theorem updateTile_total (env : Env) (s : TileMap) (i : Nat) (x y z : Int)
    (hi : i < s.mTiles.length) (hff : FaultFree env s.mStyle) :
    ∃ s1, updateTile env s i x y z = .ok s1 := by
  unfold updateTile
  rw [List.getElem?_eq_getElem hi]
  dsimp only [Tile.xyz]
  obtain ⟨r, hr⟩ := hff x y z []
  rw [hr]
  exact ⟨_, rfl⟩

theorem updateTile_keeps (env : Env) (s s1 : TileMap) (i : Nat) (x y z : Int)
    (h : updateTile env s i x y z = .ok s1) :
    s1.mStyle = s.mStyle ∧ s1.mTiles.length = s.mTiles.length ∧ i < s.mTiles.length ∧
      s1.mLastX = s.mLastX ∧ s1.mLastY = s.mLastY ∧ s1.mNamespace = s.mNamespace ∧
      s1.rebuilt = s.rebuilt ++ [⟨i, x, y, z⟩] := by
  obtain ⟨tile, ents, htile, _, hs1⟩ := updateTile_ok env s s1 i x y z h
  subst hs1
  have hi : i < s.mTiles.length := by
    by_contra hcon
    rw [List.getElem?_eq_none (by omega)] at htile
    cases htile
  exact ⟨rfl, by simp, hi, rfl, rfl, rfl, rfl⟩

/-- The invocations of `updateTile` made by the second loop of `updateZ`: the queue
heads paired, in order, with the coordinates outside the old window. -/
theorem loopZ_log (env : Env) (z : Int) :
    ∀ (cs : List (Int × Int)) (st : TileMap) (q : List Nat) (st1 : TileMap) (q1 : List Nat),
      loopZ env z cs st q = .ok (st1, q1) →
      (cs.filter (fun c => !inWindow c.1 c.2 st.mLastX st.mLastY)).length ≤ q.length ∧
      q1 = q.drop (cs.filter (fun c => !inWindow c.1 c.2 st.mLastX st.mLastY)).length ∧
      st1.rebuilt = st.rebuilt ++ List.zipWith (rebuildOf z) q
        (cs.filter (fun c => !inWindow c.1 c.2 st.mLastX st.mLastY)) := by
  intro cs
  induction cs with
  | nil =>
    intro st q st1 q1 h
    simp only [loopZ] at h
    cases h
    simp
  | cons c rest ih =>
    intro st q st1 q1 h
    obtain ⟨x, y⟩ := c
    simp only [loopZ] at h
    split at h
    · rename_i hnew
      split at h
      · cases h
      · rename_i i q2
        split at h
        · cases h
        · rename_i st2 hupd
          obtain ⟨_, _, _, hlx, hly, _, hrb⟩ := updateTile_keeps env st st2 i x y z hupd
          obtain ⟨h1, h2, h3⟩ := ih st2 q2 st1 q1 h
          rw [hlx, hly] at h1 h2 h3
          rw [List.filter_cons, if_pos hnew]
          refine ⟨by simpa using h1, by simpa using h2, ?_⟩
          rw [h3, hrb]
          simp [rebuildOf]
    · rename_i hnew
      obtain ⟨h1, h2, h3⟩ := ih st q st1 q1 h
      rw [List.filter_cons, if_neg hnew]
      exact ⟨h1, h2, h3⟩

theorem loopZ_total (env : Env) (z : Int) :
    ∀ (cs : List (Int × Int)) (st : TileMap) (q : List Nat),
      FaultFree env st.mStyle →
      (∀ i ∈ q, i < st.mTiles.length) →
      (cs.filter (fun c => !inWindow c.1 c.2 st.mLastX st.mLastY)).length ≤ q.length →
      ∃ r, loopZ env z cs st q = .ok r := by
  intro cs
  induction cs with
  | nil =>
    intro st q _ _ _
    exact ⟨_, rfl⟩
  | cons c rest ih =>
    intro st q hff hq hlen
    obtain ⟨x, y⟩ := c
    simp only [loopZ]
    by_cases hnew : (!inWindow x y st.mLastX st.mLastY) = true
    · rw [if_pos hnew]
      rw [List.filter_cons, if_pos hnew] at hlen
      cases q with
      | nil => simp at hlen
      | cons i q2 =>
        obtain ⟨st2, hst2⟩ := updateTile_total env st i x y z (hq i (List.mem_cons_self _ _)) hff
        obtain ⟨hsty, hl, _, hlx, hly, _, _⟩ := updateTile_keeps env st st2 i x y z hst2
        simp only [hst2]
        apply ih st2 q2 (hsty ▸ hff)
        · intro j hj
          rw [hl]
          exact hq j (List.mem_cons_of_mem _ hj)
        · rw [hlx, hly]
          simpa using hlen
    · rw [if_neg hnew]
      rw [List.filter_cons, if_neg hnew] at hlen
      exact ih st q hff hq hlen

theorem queueZ_lt (tiles : List Tile) (x0 y0 : Int) :
    ∀ i ∈ queueZ tiles x0 y0, i < tiles.length := by
  intro i hi
  obtain ⟨t, ht, _⟩ := mem_queueZ hi
  by_contra hcon
  rw [List.getElem?_eq_none (by omega)] at ht
  cases ht

/-- The invocations of `updateTile` made by a completed `updateZ` that moves the
centre. -/
theorem updateZ_log (env : Env) (s s1 : TileMap) (x0 y0 : Int)
    (hacc : ¬ (x0 ≤ OFFSET ∨ y0 ≤ OFFSET))
    (hmove : ¬ (x0 = s.mLastX ∧ y0 = s.mLastY))
    (h : updateZ env s x0 y0 = .ok s1) :
    (entering x0 y0 s.mLastX s.mLastY).length ≤ (queueZ s.mTiles x0 y0).length ∧
      s1.rebuilt = s.rebuilt ++ List.zipWith (rebuildOf env.ZOOM)
        (queueZ s.mTiles x0 y0) (entering x0 y0 s.mLastX s.mLastY) := by
  unfold updateZ at h
  rw [if_neg hacc] at h
  dsimp only at h
  rw [if_neg hmove] at h
  split at h
  · cases h
  · rename_i st q1 hloop
    cases h
    obtain ⟨h1, _, h3⟩ := loopZ_log env env.ZOOM (cells x0 y0) s _ st q1 hloop
    exact ⟨h1, h3⟩

/-- With a style that does not fault and a queue that is long enough, `updateZ`
completes. -/
theorem updateZ_total (env : Env) (s : TileMap) (x0 y0 : Int)
    (hff : FaultFree env s.mStyle)
    (hlen : (entering x0 y0 s.mLastX s.mLastY).length ≤ (queueZ s.mTiles x0 y0).length) :
    ∃ s1, updateZ env s x0 y0 = .ok s1 := by
  unfold updateZ
  by_cases hacc : x0 ≤ OFFSET ∨ y0 ≤ OFFSET
  · rw [if_pos hacc]; exact ⟨_, rfl⟩
  rw [if_neg hacc]
  dsimp only
  by_cases hmove : x0 = s.mLastX ∧ y0 = s.mLastY
  · rw [if_pos hmove]; exact ⟨_, rfl⟩
  rw [if_neg hmove]
  obtain ⟨⟨st, q1⟩, hr⟩ := loopZ_total env env.ZOOM (cells x0 y0) s
    (queueZ s.mTiles x0 y0) hff (queueZ_lt _ _ _) hlen
  rw [hr]
  exact ⟨_, rfl⟩

theorem staleFrom_length (x0 y0 : Int) :
    ∀ (c : List (Int × Int)) (n : Nat),
      (staleFrom x0 y0 n c).length = (c.filter (fun p => !inWindow p.1 p.2 x0 y0)).length := by
  intro c
  induction c with
  | nil => intro n; simp [staleFrom]
  | cons p ps ih =>
    intro n
    rw [staleFrom_cons]
    by_cases hp : inWindow p.1 p.2 x0 y0 = true
    · simp [hp, ih]
    · simp [hp, ih]

theorem queueZ_length (s : TileMap) (x0 y0 : Int) :
    (queueZ s.mTiles x0 y0).length =
      ((coords s).filter (fun p => !inWindow p.1 p.2 x0 y0)).length := by
  rw [queueZ_eq, staleFrom_length]
  rfl

theorem queueZ_nodup (tiles : List Tile) (x0 y0 : Int) :
    (queueZ tiles x0 y0).Nodup := by
  unfold queueZ
  have hsub : (((tiles.enumFrom 0).filter (fun it => !inWindow it.2.x it.2.y x0 y0)).map
      Prod.fst).Sublist ((tiles.enumFrom 0).map Prod.fst) :=
    (List.filter_sublist _).map _
  rw [List.enumFrom_map_fst] at hsub
  exact (List.nodup_range' 0 tiles.length).sublist hsub

/-- The slots outside the new window are at least as many as the cells that enter it,
when the assigned slots hold distinct coordinates of the old window and the other
slots fill the pool up to `SIZE * SIZE`. -/
theorem entering_le_queue (x0 y0 lx ly : Int) (occ : List (Int × Int)) (n : Nat)
    (hu : inWindow unset.1 unset.2 x0 y0 = false)
    (hlen : (occ ++ List.replicate n unset).length = 169)
    (hnd : occ.Nodup) (hin : ∀ p ∈ occ, inWindow p.1 p.2 lx ly = true) :
    (entering x0 y0 lx ly).length ≤
      ((occ ++ List.replicate n unset).filter (fun p => !inWindow p.1 p.2 x0 y0)).length := by
  have hkeep : (occ.filter (fun p => inWindow p.1 p.2 x0 y0)).length ≤
      ((cells lx ly).filter (fun p => inWindow p.1 p.2 x0 y0)).length := by
    apply List.Subperm.length_le
    apply List.Nodup.subperm (hnd.filter _)
    intro p hp
    rw [List.mem_filter] at hp ⊢
    exact ⟨(mem_cells lx ly p).2 (hin p hp.1), hp.2⟩
  have h1 := List.length_eq_length_filter_add (l := occ) (fun p => inWindow p.1 p.2 x0 y0)
  have h2 := List.length_eq_length_filter_add (l := cells lx ly)
    (fun p => inWindow p.1 p.2 x0 y0)
  have h3 : (entering lx ly x0 y0).length =
      ((cells lx ly).filter (fun p => !inWindow p.1 p.2 x0 y0)).length := rfl
  have h4 := entering_length x0 y0 lx ly
  have h5 : ((List.replicate n unset).filter (fun p => !inWindow p.1 p.2 x0 y0)).length = n := by
    rw [List.filter_replicate]
    simp [hu]
  rw [List.filter_append, List.length_append, h5]
  rw [List.length_append, List.length_replicate] at hlen
  rw [cells_length] at h2
  omega

theorem extrudeFeatures_no_underflow (env : Env) (extent : Nat) (x y z : Int) :
    ∀ (fs : List Feature) (ents : List GeoEntity),
      extrudeFeatures env extent x y z fs ents ≠ .error .emptyQueue := by
  intro fs
  induction fs with
  | nil => intro ents h; simp [extrudeFeatures] at h
  | cons f rest ih =>
    intro ents h
    simp only [extrudeFeatures] at h
    split at h
    · cases h
    · exact ih _ h

theorem layerStep_no_underflow (env : Env) (style : Style) (layer : Layer) (x y z : Int)
    (ents : List GeoEntity) : layerStep env style layer x y z ents ≠ .error .emptyQueue := by
  intro h
  have hsrc : ∀ name, style.sourceAt name ≠ .error .emptyQueue := by
    intro name hh
    unfold Style.sourceAt at hh
    split at hh <;> cases hh
  unfold layerStep at h
  split at h
  · split at h
    · rename_i e he
      cases h
      exact hsrc _ he
    · dsimp only at h
      split at h
      · split at h
        · cases h
        · exact extrudeFeatures_no_underflow _ _ _ _ _ _ _ h
      · cases h
  · cases h
  · cases h
  · cases h
  · cases h
  · split at h
    · rename_i e he
      cases h
      exact hsrc _ he
    · dsimp only at h
      split at h <;> cases h
  · cases h
  · cases h

theorem buildLayers_no_underflow (env : Env) (style : Style) (x y z : Int) :
    ∀ (ls : List Layer) (ents : List GeoEntity),
      buildLayers env style x y z ls ents ≠ .error .emptyQueue := by
  intro ls
  induction ls with
  | nil => intro ents h; simp [buildLayers] at h
  | cons l rest ih =>
    intro ents h
    simp only [buildLayers] at h
    split at h
    · rename_i e he
      cases h
      exact layerStep_no_underflow _ _ _ _ _ _ _ he
    · exact ih _ h

theorem updateTile_no_underflow (env : Env) (s : TileMap) (i : Nat) (x y z : Int) :
    updateTile env s i x y z ≠ .error .emptyQueue := by
  intro h
  unfold updateTile at h
  split at h
  · cases h
  · dsimp only at h
    split at h
    · rename_i e he
      cases h
      exact buildLayers_no_underflow _ _ _ _ _ _ _ he
    · cases h

/-- The second loop of `updateZ` does not take the head of an empty queue when the
queue is as long as the coordinates to hand out. -/
theorem loopZ_no_underflow (env : Env) (z : Int) :
    ∀ (cs : List (Int × Int)) (st : TileMap) (q : List Nat),
      (cs.filter (fun c => !inWindow c.1 c.2 st.mLastX st.mLastY)).length ≤ q.length →
      loopZ env z cs st q ≠ .error .emptyQueue := by
  intro cs
  induction cs with
  | nil => intro st q _ h; simp [loopZ] at h
  | cons c rest ih =>
    intro st q hlen h
    obtain ⟨x, y⟩ := c
    simp only [loopZ] at h
    by_cases hnew : (!inWindow x y st.mLastX st.mLastY) = true
    · rw [if_pos hnew] at h
      rw [List.filter_cons, if_pos hnew] at hlen
      cases q with
      | nil => simp at hlen
      | cons i q2 =>
        dsimp only at h
        split at h
        · rename_i e he
          cases h
          exact updateTile_no_underflow _ _ _ _ _ _ he
        · rename_i st2 hst2
          obtain ⟨_, _, _, hlx, hly, _, _⟩ := updateTile_keeps env st st2 i x y z hst2
          refine ih st2 q2 ?_ h
          rw [hlx, hly]
          simpa using hlen
    · rw [if_neg hnew] at h
      rw [List.filter_cons, if_neg hnew] at hlen
      exact ih st q hlen h

theorem updateZ_no_underflow (env : Env) (s : TileMap) (x0 y0 : Int)
    (hlen : (entering x0 y0 s.mLastX s.mLastY).length ≤ (queueZ s.mTiles x0 y0).length) :
    updateZ env s x0 y0 ≠ .error .emptyQueue := by
  intro h
  unfold updateZ at h
  split at h
  · cases h
  · dsimp only at h
    split at h
    · cases h
    · split at h
      · rename_i e he
        cases h
        exact loopZ_no_underflow env env.ZOOM (cells x0 y0) s _ hlen he
      · cases h

/-- Each queue position used by the second loop of `updateZ` holds, at the end, the
coordinate it was paired with. -/
theorem loopZ_assigned (env : Env) (z : Int) :
    ∀ (cs : List (Int × Int)) (st : TileMap) (q : List Nat) (st1 : TileMap) (q1 : List Nat),
      q.Nodup → loopZ env z cs st q = .ok (st1, q1) →
      ∀ ic ∈ List.zip q (cs.filter (fun c => !inWindow c.1 c.2 st.mLastX st.mLastY)),
        ∃ t, st1.mTiles[ic.1]? = some t ∧ t.x = ic.2.1 ∧ t.y = ic.2.2 ∧ t.z = z := by
  intro cs
  induction cs with
  | nil =>
    intro st q st1 q1 _ _ ic hic
    simp at hic
  | cons c rest ih =>
    intro st q st1 q1 hnd h ic hic
    obtain ⟨x, y⟩ := c
    simp only [loopZ] at h
    by_cases hnew : (!inWindow x y st.mLastX st.mLastY) = true
    · rw [if_pos hnew] at h
      rw [List.filter_cons, if_pos hnew] at hic
      cases q with
      | nil => cases h
      | cons i q2 =>
        dsimp only at h
        split at h
        · cases h
        · rename_i st2 hst2
          obtain ⟨_, _, hi, hlx, hly, _, _⟩ := updateTile_keeps env st st2 i x y z hst2
          obtain ⟨tile, ents, _, _, hs2⟩ := updateTile_ok env st st2 i x y z hst2
          rw [List.zip_cons_cons, List.mem_cons] at hic
          rcases hic with hic | hic
          · subst hic
            obtain ⟨hfr, _⟩ := loopZ_frame env z i rest st2 q2 st1 q1
              (List.nodup_cons.1 hnd).1 h
            refine ⟨⟨x, y, z, ents⟩, ?_, rfl, rfl, rfl⟩
            rw [hfr, hs2]
            simp [hi]
          · rw [← hlx, ← hly] at hic
            exact ih st2 q2 st1 q1 (List.nodup_cons.1 hnd).2 h ic hic
    · rw [if_neg hnew] at h
      rw [List.filter_cons, if_neg hnew] at hic
      exact ih st q st1 q1 hnd h ic hic

theorem entering_self (x0 y0 : Int) : entering x0 y0 x0 y0 = [] := by
  unfold entering
  rw [List.filter_eq_nil_iff]
  intro c hc
  rw [(mem_cells x0 y0 c).1 hc]
  simp

theorem updateZ_assigned (env : Env) (s s1 : TileMap) (x0 y0 : Int)
    (hacc : ¬ (x0 ≤ OFFSET ∨ y0 ≤ OFFSET))
    (h : updateZ env s x0 y0 = .ok s1) :
    ∀ ic ∈ List.zip (queueZ s.mTiles x0 y0) (entering x0 y0 s.mLastX s.mLastY),
      ∃ t, s1.mTiles[ic.1]? = some t ∧ t.x = ic.2.1 ∧ t.y = ic.2.2 ∧ t.z = env.ZOOM := by
  intro ic hic
  by_cases hmove : x0 = s.mLastX ∧ y0 = s.mLastY
  · rw [← hmove.1, ← hmove.2, entering_self] at hic
    simp at hic
  unfold updateZ at h
  rw [if_neg hacc] at h
  dsimp only at h
  rw [if_neg hmove] at h
  split at h
  · cases h
  · rename_i st q1 hloop
    cases h
    exact loopZ_assigned env env.ZOOM (cells x0 y0) s _ st q1
      (queueZ_nodup _ _ _) hloop ic hic

theorem updateZ_log_any (env : Env) (s s1 : TileMap) (x0 y0 : Int)
    (hacc : ¬ (x0 ≤ OFFSET ∨ y0 ≤ OFFSET))
    (h : updateZ env s x0 y0 = .ok s1) :
    s1.rebuilt = s.rebuilt ++ List.zipWith (rebuildOf env.ZOOM)
        (queueZ s.mTiles x0 y0) (entering x0 y0 s.mLastX s.mLastY) := by
  by_cases hmove : x0 = s.mLastX ∧ y0 = s.mLastY
  · have hs : s1 = s := by
      unfold updateZ at h
      rw [if_neg hacc] at h
      dsimp only at h
      rw [if_pos hmove] at h
      cases h
      rfl
    rw [hs, ← hmove.1, ← hmove.2, entering_self]
    simp
  · exact (updateZ_log env s s1 x0 y0 hacc hmove h).2

theorem faultFree_rasterStyle : FaultFree env0 rasterStyle := by
  intro x y z ents
  exact ⟨_, rfl⟩

theorem faultFree_emptyStyle (env : Env) : FaultFree env emptyStyle := by
  intro x y z ents
  exact ⟨_, rfl⟩

/-- The cells common to two windows, listed from either window. -/
theorem common_perm (x0 y0 lx ly : Int) :
    ((cells lx ly).filter (fun c => inWindow c.1 c.2 x0 y0)).Perm
      ((cells x0 y0).filter (fun c => inWindow c.1 c.2 lx ly)) := by
  rw [List.perm_ext_iff_of_nodup ((cells_nodup _ _).filter _) ((cells_nodup _ _).filter _)]
  intro p
  simp only [List.mem_filter, mem_cells]
  tauto

theorem entering_length_eq (x0 y0 lx ly : Int) :
    (entering x0 y0 lx ly).length =
      169 - ((cells x0 y0).filter (fun c => inWindow c.1 c.2 lx ly)).length := by
  have h := List.length_eq_length_filter_add (l := cells x0 y0) (fun c => inWindow c.1 c.2 lx ly)
  rw [cells_length] at h
  unfold entering
  omega

/-- When the slots hold exactly the old window, the queue has one slot for each cell
that enters the window. -/
theorem queue_length_of_window (s : TileMap) (x0 y0 : Int)
    (hwin : (coords s).Perm (cells s.mLastX s.mLastY)) :
    (queueZ s.mTiles x0 y0).length = (entering x0 y0 s.mLastX s.mLastY).length := by
  rw [queueZ_length, (hwin.filter _).length_eq, entering_length]
  rfl

theorem zipWith_rebuildOf_slot (z : Int) :
    ∀ (q : List Nat) (es : List (Int × Int)), q.length ≤ es.length →
      (List.zipWith (rebuildOf z) q es).map Rebuild.slot = q := by
  intro q
  induction q with
  | nil => intro es _; simp
  | cons i rest ih =>
    intro es h
    cases es with
    | nil => simp at h
    | cons e es2 =>
      simp only [List.zipWith_cons_cons, List.map_cons, rebuildOf]
      rw [ih es2 (by simpa using h)]

theorem zipWith_rebuildOf_xyz (z : Int) :
    ∀ (q : List Nat) (es : List (Int × Int)), es.length ≤ q.length →
      (List.zipWith (rebuildOf z) q es).map (fun r => (r.x, r.y, r.z)) =
        es.map (fun c => (c.1, c.2, z)) := by
  intro q
  induction q with
  | nil => intro es h; cases es with
    | nil => rfl
    | cons e es2 => simp at h
  | cons i rest ih =>
    intro es h
    cases es with
    | nil => simp
    | cons e es2 =>
      simp only [List.zipWith_cons_cons, List.map_cons, rebuildOf]
      rw [ih es2 (by simpa using h)]

theorem mem_zipWith_rebuildOf (z : Int) (q : List Nat) (es : List (Int × Int)) (r : Rebuild)
    (h : r ∈ List.zipWith (rebuildOf z) q es) :
    (r.slot, (r.x, r.y)) ∈ List.zip q es ∧ r.z = z := by
  rw [List.zip_eq_zipWith]
  induction q generalizing es with
  | nil => simp at h
  | cons i rest ih =>
    cases es with
    | nil => simp at h
    | cons e es2 =>
      simp only [List.zipWith_cons_cons, List.mem_cons] at h ⊢
      rcases h with h | h
      · subst h
        exact ⟨Or.inl rfl, rfl⟩
      · exact ⟨Or.inr (ih es2 h).1, (ih es2 h).2⟩

/-- A completed `updateZ` leaves alone every slot inside the new window. -/
theorem updateZ_frame (env : Env) (s s1 : TileMap) (x0 y0 : Int) (i : Nat) (t : Tile)
    (hupd : updateZ env s x0 y0 = .ok s1)
    (hslot : s.mTiles[i]? = some t)
    (hin : inWindow t.x t.y x0 y0 = true) :
    s1.mTiles[i]? = some t := by
  unfold updateZ at hupd
  split at hupd
  · cases hupd; exact hslot
  · dsimp only at hupd
    split at hupd
    · cases hupd; exact hslot
    · split at hupd
      · cases hupd
      · rename_i st q1 hloop
        cases hupd
        have hq : i ∉ queueZ s.mTiles x0 y0 := by
          intro hmem
          obtain ⟨t1, h1, h2⟩ := mem_queueZ hmem
          rw [hslot] at h1
          cases h1
          rw [hin] at h2
          cases h2
        obtain ⟨ht, _⟩ := loopZ_frame env env.ZOOM i _ s _ st q1 hq hloop
        rw [← hslot]
        exact ht

theorem mem_queueZ_iff (tiles : List Tile) (x0 y0 : Int) (j : Nat) :
    j ∈ queueZ tiles x0 y0 ↔
      ∃ t, tiles[j]? = some t ∧ inWindow t.x t.y x0 y0 = false := by
  constructor
  · exact mem_queueZ
  · rintro ⟨t, ht, hout⟩
    unfold queueZ
    rw [List.mem_map]
    refine ⟨(j, t), ?_, rfl⟩
    rw [List.mem_filter]
    refine ⟨?_, by simp [hout]⟩
    rw [List.mk_mem_enumFrom_iff_le_and_getElem?_sub]
    exact ⟨Nat.zero_le _, by simpa using ht⟩

/-- The slots hold exactly the new window after a completed accepted `updateZ` from a
state whose slots hold exactly the old window. -/
theorem updateZ_window (env : Env) (s s1 : TileMap) (x0 y0 : Int)
    (hwin : (coords s).Perm (cells s.mLastX s.mLastY))
    (hacc : ¬ (x0 ≤ OFFSET ∨ y0 ≤ OFFSET))
    (h : updateZ env s x0 y0 = .ok s1) :
    (coords s1).Perm (cells x0 y0) := by
  by_cases hmove : x0 = s.mLastX ∧ y0 = s.mLastY
  · have hs : s1 = s := by
      unfold updateZ at h
      rw [if_neg hacc] at h
      dsimp only at h
      rw [if_pos hmove] at h
      cases h
      rfl
    rw [hs, hmove.1, hmove.2]
    exact hwin
  · obtain ⟨hc, _, _⟩ := updateZ_coords env s s1 x0 y0 hacc hmove h
    have hq := queue_length_of_window s x0 y0 hwin
    rw [queueZ_length] at hq
    have hp := reassign_perm x0 y0 (coords s) (entering x0 y0 s.mLastX s.mLastY) (le_of_eq hq)
    rw [hq, List.take_length] at hp
    rw [hc]
    refine hp.trans ?_
    refine ((hwin.filter _).append_right _).trans ?_
    refine ((common_perm x0 y0 s.mLastX s.mLastY).append_right _).trans ?_
    exact List.filter_append_perm _ _

theorem updateTile_xyzs (env : Env) (s s1 : TileMap) (i : Nat) (t : Tile)
    (ht : s.mTiles[i]? = some t)
    (h : updateTile env s i t.x t.y t.z = .ok s1) : xyzs s1 = xyzs s := by
  obtain ⟨tile, ents, _, _, hs1⟩ := updateTile_ok env s s1 i t.x t.y t.z h
  subst hs1
  simp only [xyzs, List.map_set]
  apply List.ext_getElem?
  intro j
  by_cases hj : i = j
  · subst hj
    have hi : i < s.mTiles.length := by
      by_contra hcon
      rw [List.getElem?_eq_none (by omega)] at ht
      cases ht
    rw [List.getElem?_set_self (by simpa using hi)]
    simp [ht]
  · rw [List.getElem?_set_ne hj]

/-- The loop of `setStyle` calls `updateTile` once for each position visited, with
the coordinate the slot holds, and leaves the coordinates as they are. -/
theorem rebuildAll_ok (env : Env) :
    ∀ (is : List Nat) (st st1 : TileMap), rebuildAll env is st = .ok st1 →
      xyzs st1 = xyzs st ∧ st1.mLastX = st.mLastX ∧ st1.mLastY = st.mLastY ∧
      st1.mStyle = st.mStyle ∧
      ∃ rb, st1.rebuilt = st.rebuilt ++ rb ∧ rb.map Rebuild.slot = is ∧
        ∀ r ∈ rb, (xyzs st)[r.slot]? = some (r.x, r.y, r.z) := by
  intro is
  induction is with
  | nil =>
    intro st st1 h
    simp only [rebuildAll] at h
    cases h
    exact ⟨rfl, rfl, rfl, rfl, [], by simp, rfl, by simp⟩
  | cons i rest ih =>
    intro st st1 h
    simp only [rebuildAll] at h
    split at h
    · cases h
    · rename_i t ht
      split at h
      · cases h
      · rename_i st2 hst2
        have hx := updateTile_xyzs env st st2 i t ht hst2
        obtain ⟨hsty, _, _, hlx, hly, _, hrb⟩ := updateTile_keeps env st st2 i t.x t.y t.z hst2
        obtain ⟨h1, h2, h3, h4, rb, h5, h6, h7⟩ := ih st2 st1 h
        refine ⟨h1.trans hx, h2.trans hlx, h3.trans hly, h4.trans hsty,
          ⟨i, t.x, t.y, t.z⟩ :: rb, ?_, by simp [h6], ?_⟩
        · rw [h5, hrb]; simp
        · intro r hr
          rcases List.mem_cons.1 hr with hr | hr
          · subst hr
            simp [xyzs, ht]
          · rw [← hx]
            exact h7 r hr

theorem rebuildAll_total (env : Env) :
    ∀ (is : List Nat) (st : TileMap), FaultFree env st.mStyle →
      (∀ i ∈ is, i < st.mTiles.length) → ∃ st1, rebuildAll env is st = .ok st1 := by
  intro is
  induction is with
  | nil => intro st _ _; exact ⟨_, rfl⟩
  | cons i rest ih =>
    intro st hff his
    have hi := his i (List.mem_cons_self _ _)
    simp only [rebuildAll]
    rw [List.getElem?_eq_getElem hi]
    obtain ⟨st2, hst2⟩ := updateTile_total env st i st.mTiles[i].x st.mTiles[i].y
      st.mTiles[i].z hi hff
    obtain ⟨hsty, hl, _⟩ := updateTile_keeps env st st2 i _ _ _ hst2
    simp only [hst2]
    apply ih st2 (hsty ▸ hff)
    intro j hj
    rw [hl]
    exact his j (List.mem_cons_of_mem _ hj)

theorem updateDiffuseMapsLoop_eq (hasMap : String → Bool) (s : TileMap) :
    ∀ (tiles : List Tile), updateDiffuseMapsLoop hasMap s tiles =
      (tiles.filter (fun t => !hasMap (tileSid s t.x t.y t.z))).map
        (fun t => (t.x, t.y, t.z)) := by
  intro tiles
  induction tiles with
  | nil => rfl
  | cons t rest ih =>
    simp only [updateDiffuseMapsLoop, List.filter_cons]
    by_cases h : hasMap (tileSid s t.x t.y t.z) = true
    · simp [h, ih]
    · simp [h, ih]

theorem digitChar_spec (d : Nat) (h : d < 10) :
    digitVal (Nat.digitChar d) = d ∧ Nat.digitChar d ≠ '/' ∧ Nat.digitChar d ≠ '-' := by
  interval_cases d <;> decide

theorem decimalValue_append_one (pre : List Char) (c : Char) :
    decimalValue (pre ++ [c]) = 10 * decimalValue pre + digitVal c := by
  simp [decimalValue, List.foldl_append]

/-- The digits written for `n` stand in front of the accumulator, are digit
characters, and write the number `n`. -/
theorem toDigitsCore_spec :
    ∀ (fuel n : Nat) (ds : List Char), n < fuel →
      ∃ pre, Nat.toDigitsCore 10 fuel n ds = pre ++ ds ∧ pre ≠ [] ∧
        (∀ c ∈ pre, c ≠ '/' ∧ c ≠ '-') ∧ decimalValue pre = n := by
  intro fuel
  induction fuel with
  | zero => intro n ds h; omega
  | succ f ih =>
    intro n ds h
    obtain ⟨hv, hs, hm⟩ := digitChar_spec (n % 10) (Nat.mod_lt _ (by decide))
    simp only [Nat.toDigitsCore]
    by_cases h0 : n / 10 = 0
    · rw [if_pos h0]
      refine ⟨[Nat.digitChar (n % 10)], rfl, by simp, ?_, ?_⟩
      · intro c hc
        rw [List.mem_singleton] at hc
        subst hc
        exact ⟨hs, hm⟩
      · have := decimalValue_append_one [] (Nat.digitChar (n % 10))
        simp only [List.nil_append] at this
        rw [this, hv]
        simp only [decimalValue, List.foldl_nil]
        omega
    · rw [if_neg h0]
      obtain ⟨pre, hpre, _, hall, hval⟩ := ih (n / 10) (Nat.digitChar (n % 10) :: ds) (by omega)
      refine ⟨pre ++ [Nat.digitChar (n % 10)], ?_, by simp, ?_, ?_⟩
      · rw [hpre]; simp
      · intro c hc
        rcases List.mem_append.1 hc with hc | hc
        · exact hall c hc
        · rw [List.mem_singleton] at hc
          subst hc
          exact ⟨hs, hm⟩
      · rw [decimalValue_append_one, hval, hv]
        omega

theorem repr_spec (n : Nat) :
    (Nat.repr n).data ≠ [] ∧ (∀ c ∈ (Nat.repr n).data, c ≠ '/' ∧ c ≠ '-') ∧
      decimalValue (Nat.repr n).data = n := by
  obtain ⟨pre, hpre, hne, hall, hval⟩ := toDigitsCore_spec (n + 1) n [] (Nat.lt_succ_self n)
  have hd : (Nat.repr n).data = pre := by
    simp only [Nat.repr, Nat.toDigits, List.asString, hpre, List.append_nil]
  rw [hd]
  exact ⟨hne, hall, hval⟩

theorem dec_no_slash (v : Int) : '/' ∉ (dec v).data := by
  intro h
  cases v with
  | ofNat m => exact ((repr_spec m).2.1 _ h).1 rfl
  | negSucc m =>
    simp only [dec, String.data_append] at h
    rcases List.mem_append.1 h with h | h
    · revert h; decide
    · exact ((repr_spec (m + 1)).2.1 _ h).1 rfl

theorem dec_injective (v w : Int) (h : dec v = dec w) : v = w := by
  have hd := congrArg String.data h
  cases v with
  | ofNat m =>
    cases w with
    | ofNat k =>
      simp only [dec] at hd
      have := congrArg decimalValue hd
      rw [(repr_spec m).2.2, (repr_spec k).2.2] at this
      rw [this]
    | negSucc k =>
      exfalso
      simp only [dec, String.data_append] at hd
      have hmem : '-' ∈ (Nat.repr m).data := by
        rw [hd]
        exact List.mem_append_left _ (by decide)
      exact ((repr_spec m).2.1 _ hmem).2 rfl
  | negSucc m =>
    cases w with
    | ofNat k =>
      exfalso
      simp only [dec, String.data_append] at hd
      have hmem : '-' ∈ (Nat.repr k).data := by
        rw [← hd]
        exact List.mem_append_left _ (by decide)
      exact ((repr_spec k).2.1 _ hmem).2 rfl
    | negSucc k =>
      simp only [dec, String.data_append] at hd
      have := congrArg decimalValue (List.append_cancel_left hd)
      rw [(repr_spec (m + 1)).2.2, (repr_spec (k + 1)).2.2] at this
      have hmk : m = k := by omega
      rw [hmk]

/-- Two texts cut at their first separator agree part by part. -/
theorem split_at_separator (sep : Char) :
    ∀ (a c b d : List Char), sep ∉ a → sep ∉ c → a ++ sep :: b = c ++ sep :: d →
      a = c ∧ b = d := by
  intro a
  induction a with
  | nil =>
    intro c b d _ hc h
    cases c with
    | nil => simpa using h
    | cons x xs =>
      exfalso
      simp only [List.nil_append, List.cons_append, List.cons.injEq] at h
      exact hc (by simp [h.1])
  | cons y ys ih =>
    intro c b d ha hc h
    cases c with
    | nil =>
      exfalso
      simp only [List.nil_append, List.cons_append, List.cons.injEq] at h
      exact ha (by simp [h.1])
    | cons x xs =>
      simp only [List.cons_append, List.cons.injEq] at h
      obtain ⟨h1, h2⟩ := ih xs b d (fun hm => ha (List.mem_cons_of_mem _ hm))
        (fun hm => hc (List.mem_cons_of_mem _ hm)) h.2
      exact ⟨by rw [h.1, h1], h2⟩

theorem wrap_of_int (v : Int) (h1 : INT_MIN ≤ v) (h2 : v ≤ INT_MAX) : wrap v = v := by
  unfold INT_MIN at h1
  unfold INT_MAX at h2
  unfold wrap
  omega

/-- Within the range of `int` the code's test is the window test. -/
theorem isInRange_eq_inWindow (x y x0 y0 : Int)
    (hx : INT_MIN + OFFSET ≤ x0 ∧ x0 ≤ INT_MAX - OFFSET)
    (hy : INT_MIN + OFFSET ≤ y0 ∧ y0 ≤ INT_MAX - OFFSET) :
    isInRange x y x0 y0 = inWindow x y x0 y0 := by
  unfold isInRange inWindow
  rw [wrap_of_int (x0 - OFFSET) (by omega) (by rw [OFFSET_eq] at *; unfold INT_MAX at *; omega),
    wrap_of_int (x0 + OFFSET) (by rw [OFFSET_eq] at *; unfold INT_MIN at *; omega) (by omega),
    wrap_of_int (y0 - OFFSET) (by omega) (by rw [OFFSET_eq] at *; unfold INT_MAX at *; omega),
    wrap_of_int (y0 + OFFSET) (by rw [OFFSET_eq] at *; unfold INT_MIN at *; omega) (by omega)]

theorem recycleQueue_eq_queueZ (tiles : List Tile) (x0 y0 : Int)
    (hx : INT_MIN + OFFSET ≤ x0 ∧ x0 ≤ INT_MAX - OFFSET)
    (hy : INT_MIN + OFFSET ≤ y0 ∧ y0 ≤ INT_MAX - OFFSET) :
    recycleQueue tiles x0 y0 = queueZ tiles x0 y0 := by
  unfold recycleQueue queueZ
  congr 2
  funext it
  rw [isInRange_eq_inWindow _ _ _ _ hx hy]

theorem loopZ_last (env : Env) (z : Int) :
    ∀ (cs : List (Int × Int)) (st : TileMap) (q : List Nat) (st1 : TileMap) (q1 : List Nat),
      loopZ env z cs st q = .ok (st1, q1) →
      st1.mLastX = st.mLastX ∧ st1.mLastY = st.mLastY := by
  intro cs
  induction cs with
  | nil =>
    intro st q st1 q1 h
    simp only [loopZ] at h
    cases h
    exact ⟨rfl, rfl⟩
  | cons c rest ih =>
    intro st q st1 q1 h
    obtain ⟨x, y⟩ := c
    simp only [loopZ] at h
    split at h
    · split at h
      · cases h
      · rename_i i q2
        split at h
        · cases h
        · rename_i st2 hupd
          obtain ⟨_, _, _, hlx, hly, _, _⟩ := updateTile_keeps env st st2 i x y z hupd
          obtain ⟨h1, h2⟩ := ih st2 q2 st1 q1 h
          exact ⟨h1.trans hlx, h2.trans hly⟩
    · exact ih st q st1 q1 h

theorem loopZ_append (env : Env) (z : Int) :
    ∀ (a b : List (Int × Int)) (st : TileMap) (q : List Nat),
      loopZ env z (a ++ b) st q =
        match loopZ env z a st q with
        | .error e => .error e
        | .ok (st1, q1) => loopZ env z b st1 q1 := by
  intro a
  induction a with
  | nil => intro b st q; simp [loopZ]
  | cons c rest ih =>
    intro b st q
    obtain ⟨x, y⟩ := c
    simp only [List.cons_append, loopZ]
    split
    · split
      · rfl
      · split
        · rfl
        · exact ih b _ _
    · exact ih b st q

theorem LastSafe_of_eq (s s1 : TileMap) (h : LastSafe s)
    (hx : s1.mLastX = s.mLastX) (hy : s1.mLastY = s.mLastY) : LastSafe s1 := by
  unfold LastSafe at *
  rw [hx, hy]
  exact h

/-- The inner loop of `update`, when its counter does not wrap, runs the body over the
values from `y` to `hi`. -/
theorem updateLoopY_eq_loopZ (env : Env) (z x hi : Int) (hhi : hi < INT_MAX) :
    ∀ (k fuel : Nat) (y : Int) (st : TileMap) (q : List Nat),
      k < fuel → INT_MIN ≤ y → y + k = hi + 1 → LastSafe st →
      updateLoopY env z x hi fuel y st q =
        loopZ env z ((List.range k).map (fun (j : Nat) => (x, y + (j : Int)))) st q := by
  intro k
  induction k with
  | zero =>
    intro fuel y st q hf _ hy _
    cases fuel with
    | zero => omega
    | succ f =>
      simp only [updateLoopY, List.range_zero, List.map_nil, loopZ]
      rw [if_neg (by omega)]
  | succ k ih =>
    intro fuel y st q hf hlo hy hl
    cases fuel with
    | zero => omega
    | succ f =>
      have hw : wrap (y + 1) = y + 1 := wrap_of_int _ (by omega) (by omega)
      have htest : isInRange x y st.mLastX st.mLastY = inWindow x y st.mLastX st.mLastY :=
        isInRange_eq_inWindow _ _ _ _ hl.1 hl.2
      have hlist : (List.range (k + 1)).map (fun (j : Nat) => (x, y + (j : Int))) =
          (x, y) :: (List.range k).map (fun (j : Nat) => (x, y + 1 + (j : Int))) := by
        rw [List.range_succ_eq_map, List.map_cons, List.map_map]
        simp only [Nat.cast_zero, add_zero, List.cons.injEq, true_and]
        apply List.map_congr_left
        intro j _
        simp only [Function.comp, Nat.cast_succ]
        congr 1
        omega
      rw [hlist]
      simp only [updateLoopY, loopZ, updateStep, htest, hw]
      rw [if_pos (by omega)]
      by_cases hnew : (!inWindow x y st.mLastX st.mLastY) = true
      · rw [if_pos hnew, if_pos hnew]
        cases q with
        | nil => rfl
        | cons i q2 =>
          dsimp only
          cases hupd : updateTile env st i x y z with
          | error e => rfl
          | ok st2 =>
            dsimp only
            obtain ⟨_, _, _, hlx, hly, _, _⟩ := updateTile_keeps env st st2 i x y z hupd
            exact ih f (y + 1) st2 q2 (by omega) (by omega) (by omega)
              (LastSafe_of_eq st st2 hl hlx hly)
      · rw [if_neg hnew, if_neg hnew]
        dsimp only
        exact ih f (y + 1) st q (by omega) (by omega) (by omega) hl

theorem span_eq (c : Int) :
    span c = (List.range 13).map (fun (j : Nat) => c - OFFSET + (j : Int)) := by
  unfold span
  rw [OFFSET_eq]
  rfl

/-- The outer loop of `update`, when no counter wraps, runs the body over the columns
from `x` to `hi`, each over the rows around `y0`. -/
theorem updateLoopX_eq_loopZ (env : Env) (z y0 hi : Int) (hhi : hi < INT_MAX)
    (hy : INT_MIN + OFFSET ≤ y0 ∧ y0 < INT_MAX - OFFSET) :
    ∀ (k fuel : Nat) (x : Int) (st : TileMap) (q : List Nat),
      k < fuel → INT_MIN ≤ x → x + k = hi + 1 → LastSafe st →
      updateLoopX env z y0 hi fuel x st q =
        loopZ env z (((List.range k).map (fun (j : Nat) => x + (j : Int))).flatMap
          (fun x1 => (span y0).map (fun y => (x1, y)))) st q := by
  intro k
  induction k with
  | zero =>
    intro fuel x st q hf _ hx _
    cases fuel with
    | zero => omega
    | succ f =>
      simp only [updateLoopX, List.range_zero, List.map_nil, List.flatMap_nil, loopZ]
      rw [if_neg (by omega)]
  | succ k ih =>
    intro fuel x st q hf hlo hx hl
    cases fuel with
    | zero => omega
    | succ f =>
      have hw : wrap (x + 1) = x + 1 := wrap_of_int _ (by omega) (by omega)
      have hwlo : wrap (y0 - OFFSET) = y0 - OFFSET :=
        wrap_of_int _ (by omega) (by rw [OFFSET_eq] at *; omega)
      have hwhi : wrap (y0 + OFFSET) = y0 + OFFSET :=
        wrap_of_int _ (by rw [OFFSET_eq] at *; unfold INT_MIN at *; omega) (by omega)
      have hinner : ∀ (st1 : TileMap) (q1 : List Nat), LastSafe st1 →
          updateLoopY env z x (wrap (y0 + OFFSET)) LOOP_FUEL (wrap (y0 - OFFSET)) st1 q1 =
            loopZ env z ((span y0).map (fun y => (x, y))) st1 q1 := by
        intro st1 q1 hl1
        rw [hwlo, hwhi, updateLoopY_eq_loopZ env z x (y0 + OFFSET) (by omega) 13 LOOP_FUEL
          (y0 - OFFSET) st1 q1 (by decide) (by omega) (by rw [OFFSET_eq]; omega) hl1,
          span_eq, List.map_map]
        rfl
      have hlist : (List.range (k + 1)).map (fun (j : Nat) => x + (j : Int)) =
          x :: (List.range k).map (fun (j : Nat) => x + 1 + (j : Int)) := by
        rw [List.range_succ_eq_map, List.map_cons, List.map_map]
        simp only [Nat.cast_zero, add_zero, List.cons.injEq, true_and]
        apply List.map_congr_left
        intro j _
        simp only [Function.comp, Nat.cast_succ]
        omega
      rw [hlist, List.flatMap_cons, loopZ_append]
      simp only [updateLoopX, hw]
      rw [if_pos (by omega), hinner st q hl]
      cases hin : loopZ env z ((span y0).map (fun y => (x, y))) st q with
      | error e => rfl
      | ok r =>
        obtain ⟨st1, q1⟩ := r
        dsimp only
        obtain ⟨hlx, hly⟩ := loopZ_last env z _ st q st1 q1 hin
        exact ih f (x + 1) st1 q1 (by omega) (by omega) (by omega)
          (LastSafe_of_eq st st1 hl hlx hly)

/-- As long as no `int` expression wraps, `update` is `updateZ`. -/
theorem update_eq_updateZ (env : Env) (s : TileMap) (x0 y0 : Int)
    (hsafe : Safe x0 y0) (hl : LastSafe s) : update env s x0 y0 = updateZ env s x0 y0 := by
  unfold update updateZ
  by_cases hacc : x0 ≤ OFFSET ∨ y0 ≤ OFFSET
  · rw [if_pos hacc, if_pos hacc]
  rw [if_neg hacc, if_neg hacc]
  dsimp only
  by_cases hmove : x0 = s.mLastX ∧ y0 = s.mLastY
  · rw [if_pos hmove, if_pos hmove]
  rw [if_neg hmove, if_neg hmove]
  have hb : x0 < INT_MAX - OFFSET ∧ y0 < INT_MAX - OFFSET := by
    unfold Safe at hsafe
    tauto
  have h6 := OFFSET_eq
  have hxlo : INT_MIN + OFFSET ≤ x0 := by unfold INT_MIN; omega
  have hylo : INT_MIN + OFFSET ≤ y0 := by unfold INT_MIN; omega
  rw [recycleQueue_eq_queueZ s.mTiles x0 y0 ⟨hxlo, by omega⟩ ⟨hylo, by omega⟩,
    wrap_of_int (x0 + OFFSET) (by unfold INT_MIN; omega) (by omega),
    wrap_of_int (x0 - OFFSET) (by omega) (by unfold INT_MAX at *; omega),
    updateLoopX_eq_loopZ env env.ZOOM y0 (x0 + OFFSET) (by omega) ⟨hylo, hb.2⟩ 13 LOOP_FUEL
      (x0 - OFFSET) s _ (by decide) (by omega) (by omega) hl]
  have hcells : ((List.range 13).map (fun (j : Nat) => x0 - OFFSET + (j : Int))).flatMap
      (fun x1 => (span y0).map (fun y => (x1, y))) = cells x0 y0 := by
    unfold cells
    rw [span_eq x0]
  rw [hcells]

theorem Untouched.refl (i : Nat) (s : TileMap) : Untouched i s s :=
  ⟨rfl, [], [], by simp, by simp, by simp, by simp⟩

theorem Untouched.trans {i : Nat} {s s1 s2 : TileMap} (h1 : Untouched i s s1)
    (h2 : Untouched i s1 s2) : Untouched i s s2 := by
  obtain ⟨ht1, rb1, sc1, hr1, hs1, hrb1, hsc1⟩ := h1
  obtain ⟨ht2, rb2, sc2, hr2, hs2, hrb2, hsc2⟩ := h2
  refine ⟨ht2.trans ht1, rb1 ++ rb2, sc1 ++ sc2, ?_, ?_, ?_, ?_⟩
  · rw [hr2, hr1, List.append_assoc]
  · rw [hs2, hs1, List.append_assoc]
  · intro r hr
    rcases List.mem_append.1 hr with h | h
    · exact hrb1 r h
    · exact hrb2 r h
  · intro c hc
    rcases List.mem_append.1 hc with h | h
    · exact hsc1 c h
    · exact hsc2 c h

theorem updateTile_untouched (env : Env) (s s1 : TileMap) (i j : Nat) (x y z : Int)
    (hji : j ≠ i) (h : updateTile env s j x y z = .ok s1) : Untouched i s s1 := by
  obtain ⟨tile, ents, _, _, hs1⟩ := updateTile_ok env s s1 j x y z h
  subst hs1
  refine ⟨by simp [List.getElem?_set_ne hji], [⟨j, x, y, z⟩],
    tile.mGeoEntities.map (SceneCall.removeGeoEntity j) ++ ents.map (SceneCall.addGeoEntity j),
    rfl, by simp, ?_, ?_⟩
  · intro r hr
    rw [List.mem_singleton] at hr
    subst hr
    exact hji
  · intro c hc
    simp only [List.mem_append, List.mem_map] at hc
    rcases hc with ⟨g, _, rfl⟩ | ⟨g, _, rfl⟩ <;> exact hji

theorem updateStep_untouched (env : Env) (z x y : Int) (i : Nat) (st st1 : TileMap)
    (q q1 : List Nat) (hq : i ∉ q) (h : updateStep env z x y st q = .ok (st1, q1)) :
    Untouched i st st1 ∧ i ∉ q1 := by
  unfold updateStep at h
  split at h
  · split at h
    · cases h
    · rename_i j q2
      split at h
      · cases h
      · rename_i st2 hupd
        cases h
        exact ⟨updateTile_untouched env st st1 i j x y z (fun e => hq (by simp [e])) hupd,
          fun e => hq (List.mem_cons_of_mem _ e)⟩
  · cases h
    exact ⟨Untouched.refl i st, hq⟩

theorem updateLoopY_untouched (env : Env) (z x hi : Int) (i : Nat) :
    ∀ (fuel : Nat) (y : Int) (st : TileMap) (q : List Nat) (st1 : TileMap) (q1 : List Nat),
      i ∉ q → updateLoopY env z x hi fuel y st q = .ok (st1, q1) →
      Untouched i st st1 ∧ i ∉ q1 := by
  intro fuel
  induction fuel with
  | zero => intro y st q st1 q1 _ h; simp [updateLoopY] at h
  | succ f ih =>
    intro y st q st1 q1 hq h
    simp only [updateLoopY] at h
    split at h
    · split at h
      · cases h
      · rename_i st2 q2 hstep
        obtain ⟨h1, hq2⟩ := updateStep_untouched env z x y i st st2 q q2 hq hstep
        obtain ⟨h2, hq1⟩ := ih _ st2 q2 st1 q1 hq2 h
        exact ⟨h1.trans h2, hq1⟩
    · cases h
      exact ⟨Untouched.refl i st, hq⟩

theorem updateLoopX_untouched (env : Env) (z y0 hi : Int) (i : Nat) :
    ∀ (fuel : Nat) (x : Int) (st : TileMap) (q : List Nat) (st1 : TileMap) (q1 : List Nat),
      i ∉ q → updateLoopX env z y0 hi fuel x st q = .ok (st1, q1) →
      Untouched i st st1 ∧ i ∉ q1 := by
  intro fuel
  induction fuel with
  | zero => intro x st q st1 q1 _ h; simp [updateLoopX] at h
  | succ f ih =>
    intro x st q st1 q1 hq h
    simp only [updateLoopX] at h
    split at h
    · split at h
      · cases h
      · rename_i st2 q2 hin
        obtain ⟨h1, hq2⟩ := updateLoopY_untouched env z x _ i _ _ st q st2 q2 hq hin
        obtain ⟨h2, hq1⟩ := ih _ st2 q2 st1 q1 hq2 h
        exact ⟨h1.trans h2, hq1⟩
    · cases h
      exact ⟨Untouched.refl i st, hq⟩

theorem mem_recycleQueue {tiles : List Tile} {x0 y0 : Int} {j : Nat}
    (h : j ∈ recycleQueue tiles x0 y0) :
    ∃ t, tiles[j]? = some t ∧ isInRange t.x t.y x0 y0 = false := by
  unfold recycleQueue at h
  rw [List.mem_map] at h
  obtain ⟨⟨j1, t⟩, hmem, hj⟩ := h
  rw [List.mem_filter] at hmem
  obtain ⟨hmem, hout⟩ := hmem
  simp only at hj
  subst hj
  rw [List.mk_mem_enumFrom_iff_le_and_getElem?_sub] at hmem
  refine ⟨t, by simpa using hmem.2, by simpa using hout⟩

/-- When the rows wrap, the inner loop does nothing, and so does the outer loop. -/
theorem updateLoopX_rows_wrap (env : Env) (z y0 hi : Int)
    (hy : wrap (y0 + OFFSET) < wrap (y0 - OFFSET)) :
    ∀ (fuel : Nat) (x : Int) (st : TileMap) (q : List Nat) (st1 : TileMap) (q1 : List Nat),
      updateLoopX env z y0 hi fuel x st q = .ok (st1, q1) → st1 = st := by
  intro fuel
  induction fuel with
  | zero => intro x st q st1 q1 h; simp [updateLoopX] at h
  | succ f ih =>
    intro x st q st1 q1 h
    simp only [updateLoopX] at h
    have hin : updateLoopY env z x (wrap (y0 + OFFSET)) LOOP_FUEL (wrap (y0 - OFFSET)) st q =
        .ok (st, q) := by
      obtain ⟨f1, hf⟩ : ∃ f1, LOOP_FUEL = f1 + 1 := ⟨4294967296, rfl⟩
      rw [hf]
      simp only [updateLoopY]
      rw [if_neg (by omega)]
    rw [hin] at h
    dsimp only at h
    split at h
    · exact ih _ st q st1 q1 h
    · cases h
      rfl

/-- A completed `update` leaves alone every slot inside the window centred on the
new centre: no call of `updateTile`, no scene call, same tile. -/
theorem update_untouched (env : Env) (s s1 : TileMap) (x0 y0 : Int) (i : Nat) (t : Tile)
    (hx : x0 ≤ INT_MAX) (hy : y0 ≤ INT_MAX)
    (hupd : update env s x0 y0 = .ok s1)
    (hslot : s.mTiles[i]? = some t)
    (hin : inWindow t.x t.y x0 y0 = true) : Untouched i s s1 := by
  have hrefl : ∀ (st : TileMap), Untouched i s st → ∀ (a b : Int),
      Untouched i s { st with mLastX := a, mLastY := b } := fun st h a b => h
  unfold update at hupd
  split at hupd
  · cases hupd; exact Untouched.refl i s
  · rename_i hacc
    dsimp only at hupd
    split at hupd
    · cases hupd; exact Untouched.refl i s
    · split at hupd
      · cases hupd
      · rename_i st q1 hloop
        cases hupd
        apply hrefl
        have h6 := OFFSET_eq
        have hwlo : ∀ c : Int, OFFSET < c → c ≤ INT_MAX → wrap (c - OFFSET) = c - OFFSET :=
          fun c h1 h2 => wrap_of_int _ (by unfold INT_MIN; omega) (by omega)
        have hwhi : ∀ c : Int, OFFSET < c → c ≤ INT_MAX → INT_MAX < c + OFFSET →
            wrap (c + OFFSET) < c - OFFSET := by
          intro c h1 h2 h3
          unfold wrap
          unfold INT_MAX at h2 h3
          omega
        by_cases hxo : x0 + OFFSET ≤ INT_MAX
        · by_cases hyo : y0 + OFFSET ≤ INT_MAX
          · have hq : i ∉ recycleQueue s.mTiles x0 y0 := by
              intro hmem
              obtain ⟨t1, h1, h2⟩ := mem_recycleQueue hmem
              rw [hslot] at h1
              cases h1
              rw [isInRange_eq_inWindow _ _ _ _ ⟨by unfold INT_MIN; omega, by omega⟩
                ⟨by unfold INT_MIN; omega, by omega⟩, hin] at h2
              cases h2
            exact (updateLoopX_untouched env env.ZOOM y0 _ i _ _ s _ st q1 hq hloop).1
          · have hrows : wrap (y0 + OFFSET) < wrap (y0 - OFFSET) := by
              rw [hwlo y0 (by omega) hy]
              exact hwhi y0 (by omega) hy (by omega)
            rw [updateLoopX_rows_wrap env env.ZOOM y0 _ hrows _ _ s _ st q1 hloop]
            exact Untouched.refl i s
        · have hcols : wrap (x0 + OFFSET) < wrap (x0 - OFFSET) := by
            rw [hwlo x0 (by omega) hx]
            exact hwhi x0 (by omega) hx (by omega)
          obtain ⟨f1, hf⟩ : ∃ f1, LOOP_FUEL = f1 + 1 := ⟨4294967296, rfl⟩
          rw [hf] at hloop
          simp only [updateLoopX] at hloop
          rw [if_neg (by omega)] at hloop
          cases hloop
          exact Untouched.refl i s

theorem Safe_of_bounds (x0 y0 : Int)
    (hmax : x0 < INT_MAX - OFFSET ∧ y0 < INT_MAX - OFFSET) : Safe x0 y0 :=
  Or.inr (Or.inr hmax)

theorem LastSafe_init (style : Style) : LastSafe (TileMap.construct style).init := by
  unfold LastSafe
  show (INT_MIN + OFFSET ≤ (-1 : Int) ∧ (-1 : Int) ≤ INT_MAX - OFFSET) ∧
    (INT_MIN + OFFSET ≤ (-1 : Int) ∧ (-1 : Int) ≤ INT_MAX - OFFSET)
  decide

/-- One completed `update` with a safe centre keeps the grid invariant and a safe last
centre. -/
theorem invariant_step (env : Env) (s s1 : TileMap) (x y : Int) (hsafe : Safe x y)
    (hinv : GridInv s) (hl : LastSafe s) (h : update env s x y = .ok s1) :
    GridInv s1 ∧ LastSafe s1 := by
  rw [update_eq_updateZ env s x y hsafe hl] at h
  refine ⟨GridInv_update env s s1 x y hinv h, ?_⟩
  by_cases hacc : x ≤ OFFSET ∨ y ≤ OFFSET
  · rw [updateZ_rejected env s x y hacc] at h
    cases h
    exact hl
  · obtain ⟨hx, hy⟩ := updateZ_centre env s s1 x y (by omega) h
    have hb : x < INT_MAX - OFFSET ∧ y < INT_MAX - OFFSET := by
      unfold Safe at hsafe
      tauto
    have h6 := OFFSET_eq
    unfold LastSafe
    rw [hx, hy]
    unfold INT_MIN
    omega

theorem invariant_run (env : Env) :
    ∀ (moves : List (Int × Int)) (s s1 : TileMap),
      (∀ m ∈ moves, Safe m.1 m.2) → GridInv s → LastSafe s → run env s moves = .ok s1 →
      GridInv s1 ∧ LastSafe s1 := by
  intro moves
  induction moves with
  | nil =>
    intro s s1 _ hinv hl h
    simp only [run] at h
    cases h
    exact ⟨hinv, hl⟩
  | cons m rest ih =>
    intro s s1 hsafe hinv hl h
    obtain ⟨x, y⟩ := m
    simp only [run] at h
    split at h
    · cases h
    · rename_i s2 h2
      obtain ⟨hinv2, hl2⟩ := invariant_step env s s2 x y
        (hsafe (x, y) (List.mem_cons_self _ _)) hinv hl h2
      exact ih s2 s1 (fun m hm => hsafe m (List.mem_cons_of_mem _ hm)) hinv2 hl2 h

theorem invariant_of_reachable (env : Env) (s : TileMap) (h : Reachable env s) :
    GridInv s ∧ LastSafe s := by
  obtain ⟨style, moves, hsafe, hrun⟩ := h
  exact invariant_run env moves _ s hsafe (GridInv_init style) (LastSafe_init style) hrun

theorem reachable_one (env : Env) (style : Style) (s1 : TileMap) (x y : Int)
    (hsafe : Safe x y) (h : update env (TileMap.construct style).init x y = .ok s1) :
    Reachable env s1 :=
  ⟨style, [(x, y)], by
    intro m hm
    rw [List.mem_singleton] at hm
    subst hm
    exact hsafe, run_one env _ _ x y h⟩

theorem update_rejected (env : Env) (s : TileMap) (x y : Int)
    (h : x ≤ OFFSET ∨ y ≤ OFFSET) : update env s x y = .ok s := by
  unfold update
  rw [if_pos h]

/-! ## Claims -/

set_option maxRecDepth 1000000 in
/-- C1 (the code at the failing input). From the state produced by `init()`,
`update(10, 10)` calls `updateTile` 165 times, not 169: the cells `(4, 4)`, `(4, 5)`,
`(5, 4)` and `(5, 5)` of the new window lie inside the window centred on the unset
centre `(-1, -1)`, are skipped by the second loop and are held by no slot afterwards,
and four slots stay unset. -/
theorem C1_first_update_skips_cells :
    (update env0 initial 10 10).toOption.map (fun s =>
      (s.rebuilt.length, (coords s).count unset,
        [((4 : Int), (4 : Int)), (4, 5), (5, 4), (5, 5)].map (fun c => decide (c ∈ coords s)),
        s.mLastX, s.mLastY))
      = some (165, 4, [false, false, false, false], 10, 10) := by
  decide

/-- C2. No redundant rebuild: when `update(x0, y0)` completes, for `int` centres
`x0, y0 <= INT_MAX`, a slot whose coordinate lies inside the window centred on
`(x0, y0)` keeps its coordinate and its renderables, is not passed to `updateTile`,
and no scene call issued by the update concerns it. -/
theorem C2_no_redundant_rebuild (env : Env) (s s1 : TileMap) (x0 y0 : Int) (i : Nat)
    (t : Tile)
    (hx : x0 ≤ INT_MAX) (hy : y0 ≤ INT_MAX)
    (hupd : update env s x0 y0 = .ok s1)
    (hslot : s.mTiles[i]? = some t)
    (hin : inWindow t.x t.y x0 y0 = true) :
    s1.mTiles[i]? = some t ∧
      ∃ rb sc, s1.rebuilt = s.rebuilt ++ rb ∧ s1.scene = s.scene ++ sc ∧
        (∀ r ∈ rb, r.slot ≠ i) ∧ (∀ c ∈ sc, c.slot ≠ i) := by
  obtain ⟨ht, rest⟩ := update_untouched env s s1 x0 y0 i t hx hy hupd hslot hin
  exact ⟨ht.trans hslot, rest⟩

set_option maxRecDepth 1000000 in
/-- C2 at concrete inputs: after `init()` and `update(20, 20)` with a RASTER style,
`update(21, 20)` leaves slot 13, which holds `(15, 14)`, as it is. -/
theorem C2_no_redundant_rebuild_witness :
    update env0 rasterAt20 21 20 = .ok rasterAt21 ∧
    rasterAt20.mTiles[13]? = some ⟨15, 14, 19,
      [GeoEntity.rasterTile 15 14 19 [DiffuseMap.acquired "damier"]]⟩ ∧
    inWindow 15 14 21 20 = true ∧
    (rasterAt21.mTiles[13]? = some ⟨15, 14, 19,
      [GeoEntity.rasterTile 15 14 19 [DiffuseMap.acquired "damier"]]⟩ ∧
      ∃ rb sc, rasterAt21.rebuilt = rasterAt20.rebuilt ++ rb ∧
        rasterAt21.scene = rasterAt20.scene ++ sc ∧
        (∀ r ∈ rb, r.slot ≠ 13) ∧ (∀ c ∈ sc, c.slot ≠ 13)) :=
  ⟨eq_ok_okOr _ _ (by decide), by decide, by decide,
    C2_no_redundant_rebuild env0 rasterAt20 rasterAt21 21 20 13 _ (by decide) (by decide)
      (eq_ok_okOr _ _ (by decide)) (by decide) (by decide)⟩

set_option maxRecDepth 1000000 in
/-- C3 (the code at the failing input). From the state produced by `init()`, the
first loop of `update(10, 10)` queues 169 slots while the second loop reassigns 165
coordinates, and four slots are left in the queue. -/
theorem C3_first_update_queue_not_emptied :
    (recycleQueue initial.mTiles 10 10).length = 169 ∧
    (entering 10 10 initial.mLastX initial.mLastY).length = 165 ∧
    (updateLoopX env0 env0.ZOOM 10 (wrap (10 + OFFSET)) LOOP_FUEL (wrap (10 - OFFSET)) initial
      (recycleQueue initial.mTiles 10 10)).toOption.map (fun r => (r.1.rebuilt.length, r.2)) =
        some (165, [165, 166, 167, 168]) := by
  decide

/-- C4. The call `updateTile(slot, x, y, z)` discards stale renderables: when it
completes, the slot holds `(x, y, z)` and owns exactly the renderables the layers of
the style built for `(x, y, z)`, starting from an empty collection; the scene received
a `removeGeoEntity` for every renderable the slot owned before and then an
`addGeoEntity` for every renderable built, and nothing else. With a style whose only
layer is EXTRUDE, over a source whose fetch is empty, the call completes, the slot owns
no renderable and the scene received the removals only. -/
theorem C4_updateTile_discards_stale (env : Env) (s : TileMap) (i : Nat) (x y z : Int)
    (tile : Tile) (hslot : s.mTiles[i]? = some tile) :
    (∀ s1, updateTile env s i x y z = .ok s1 →
      ∃ ents, buildLayers env s.mStyle x y z s.mStyle.layers [] = .ok ents ∧
        s1.mTiles[i]? = some ⟨x, y, z, ents⟩ ∧
        s1.scene = s.scene ++ tile.mGeoEntities.map (SceneCall.removeGeoEntity i)
          ++ ents.map (SceneCall.addGeoEntity i)) ∧
    (∀ (name : String) (src : Source), s.mStyle.layers = [⟨LayerType.EXTRUDE, name⟩] →
      s.mStyle.sourceAt name = .ok src → src.fetch x y z = [] →
      ∃ s1, updateTile env s i x y z = .ok s1 ∧ s1.mTiles[i]? = some ⟨x, y, z, []⟩ ∧
        s1.scene = s.scene ++ tile.mGeoEntities.map (SceneCall.removeGeoEntity i)) := by
  have hi : i < s.mTiles.length := by
    by_contra hcon
    rw [List.getElem?_eq_none (by omega)] at hslot
    cases hslot
  have main : ∀ s1, updateTile env s i x y z = .ok s1 →
      ∃ ents, buildLayers env s.mStyle x y z s.mStyle.layers [] = .ok ents ∧
        s1.mTiles[i]? = some ⟨x, y, z, ents⟩ ∧
        s1.scene = s.scene ++ tile.mGeoEntities.map (SceneCall.removeGeoEntity i)
          ++ ents.map (SceneCall.addGeoEntity i) := by
    intro s1 h
    obtain ⟨tile1, ents, ht1, hents, hs1⟩ := updateTile_ok env s s1 i x y z h
    rw [hslot] at ht1
    cases ht1
    subst hs1
    exact ⟨ents, hents, by simp [hi], rfl⟩
  refine ⟨main, ?_⟩
  intro name src hlayers hsrc hfetch
  have hb : buildLayers env s.mStyle x y z s.mStyle.layers [] = .ok [] := by
    rw [hlayers]
    simp [buildLayers, layerStep, hsrc, hfetch]
  have hok : ∃ s1, updateTile env s i x y z = .ok s1 := by
    unfold updateTile
    rw [hslot]
    dsimp only [Tile.xyz]
    rw [hb]
    exact ⟨_, rfl⟩
  obtain ⟨s1, hs1⟩ := hok
  obtain ⟨ents, hents, ht, hsc⟩ := main s1 hs1
  rw [hb] at hents
  cases hents
  exact ⟨s1, hs1, ht, by simpa using hsc⟩

/-- C4 at a concrete input: a slot at `(7, 7, 19)` that owns one renderable, with one
EXTRUDE layer whose fetch is empty, is moved to `(8, 7, 19)`. -/
theorem C4_updateTile_discards_stale_witness :
    ownerState.mTiles[0]? = some ⟨7, 7, 19, [oldEntity]⟩ ∧
    (updateTile env0 ownerState 0 8 7 19).toOption.map (fun s1 => (s1.mTiles, s1.scene)) =
      some ([⟨8, 7, 19, []⟩], [SceneCall.removeGeoEntity 0 oldEntity]) ∧
    ((∀ s1, updateTile env0 ownerState 0 8 7 19 = .ok s1 →
      ∃ ents, buildLayers env0 ownerState.mStyle 8 7 19 ownerState.mStyle.layers [] = .ok ents ∧
        s1.mTiles[0]? = some ⟨8, 7, 19, ents⟩ ∧
        s1.scene = ownerState.scene ++
          (Tile.mk 7 7 19 [oldEntity]).mGeoEntities.map (SceneCall.removeGeoEntity 0)
          ++ ents.map (SceneCall.addGeoEntity 0)) ∧
    (∀ (name : String) (src : Source),
      ownerState.mStyle.layers = [⟨LayerType.EXTRUDE, name⟩] →
      ownerState.mStyle.sourceAt name = .ok src → src.fetch 8 7 19 = [] →
      ∃ s1, updateTile env0 ownerState 0 8 7 19 = .ok s1 ∧
        s1.mTiles[0]? = some ⟨8, 7, 19, []⟩ ∧
        s1.scene = ownerState.scene ++
          (Tile.mk 7 7 19 [oldEntity]).mGeoEntities.map (SceneCall.removeGeoEntity 0))) :=
  ⟨by decide, by decide,
    C4_updateTile_discards_stale env0 ownerState 0 8 7 19 ⟨7, 7, 19, [oldEntity]⟩ (by decide)⟩

/-- C5 (counterexample). A payload whose first geometry layer has two features makes
the EXTRUDE branch append two renderables to the slot, the second one built from the
second feature. -/
theorem C5_two_features_two_renderables :
    (updateTile envTwoFeatures freshSlotState 0 1 2 3).toOption.map
        (fun s => s.mTiles.map (fun t => t.mGeoEntities)) =
      some [[GeoEntity.building [(1, 1)] 4096 1 2 3, GeoEntity.building [(2, 2)] 4096 1 2 3]] := by
  decide

/-- C5 (amended). For a non-empty payload whose decoding has a first geometry layer
in which every feature decodes to at least one polygon, the EXTRUDE branch of
`updateTile` completes and appends exactly one renderable per feature of that layer,
in feature order, each built from the first polygon of its feature; further polygons
of a feature and further layers produce no renderable. -/
theorem C5_extrude_one_renderable_per_feature (env : Env) (style : Style) (name : String)
    (src : Source) (x y z : Int) (ents : List GeoEntity) (l0 : VLayer) (rest : List VLayer)
    (hsrc : style.sourceAt name = .ok src)
    (hdata : src.fetch x y z ≠ [])
    (hlayers : (env.ParseFromArray (src.fetch x y z)).layers = l0 :: rest)
    (hpoly : ∀ f ∈ l0.features, env.polygons f.geometry ≠ []) :
    layerStep env style ⟨LayerType.EXTRUDE, name⟩ x y z ents =
      .ok (ents ++ l0.features.map (fun f =>
        GeoEntity.building ((env.polygons f.geometry).headD []) l0.extent x y z)) := by
  simp only [layerStep, hsrc, hdata, hlayers, ne_eq, not_false_eq_true, if_true]
  exact extrudeFeatures_ok env l0.extent x y z l0.features ents hpoly

/-- C5 (amended) at a concrete input: the two-feature payload of the counterexample. -/
theorem C5_extrude_one_renderable_per_feature_witness :
    layerStep envTwoFeatures extrudeStyle ⟨LayerType.EXTRUDE, "v"⟩ 1 2 3 [] =
      .ok ([] ++ [Feature.mk [1], Feature.mk [2]].map (fun f =>
        GeoEntity.building ((envTwoFeatures.polygons f.geometry).headD []) 4096 1 2 3)) :=
  C5_extrude_one_renderable_per_feature envTwoFeatures extrudeStyle "v" ⟨fun _ _ _ => [1]⟩
    1 2 3 [] ⟨[⟨[1]⟩, ⟨[2]⟩], 4096⟩ [] rfl (by decide) rfl (by decide)

set_option maxRecDepth 1000000 in
/-- C6 (counterexample). After `init()` and `update(20, 20)` slot 0 holds `(14, 14)`;
`update(2147483647, 20)` is accepted and completes, `(14, 14)` is outside the window of
the new centre, and `notifyTileAvailable(14, 14, 19)` returns `STATUS_OK`: the bound
`x0 + OFFSET` wrapped, the second loop did not run and no slot was reassigned. -/
theorem C6_stale_notification_after_wrap :
    rasterAt20.mTiles[0]? = some ⟨14, 14, 19,
      [GeoEntity.rasterTile 14 14 19 [DiffuseMap.acquired "damier"]]⟩ ∧
    (OFFSET < (2147483647 : Int) ∧ OFFSET < (20 : Int)) ∧
    inWindow 14 14 2147483647 20 = false ∧ isInRange 14 14 2147483647 20 = false ∧
    (update env0 rasterAt20 2147483647 20).toOption.map
        (fun s1 => ((notifyTileAvailable s1 14 14 env0.ZOOM).1, s1.mLastX, s1.mLastY)) =
      some (Status.STATUS_OK, 2147483647, 20) := by
  decide

/-- C6 (amended). Stale notifications are discarded: in a state reached from `init()`
by `update` calls whose accepted centres have both coordinates below
`INT_MAX - OFFSET`, when a slot holds a coordinate `(x, y)` other than the unset one
and an accepted `update(x0, y0)` with `x0, y0 < INT_MAX - OFFSET` completes with
`(x, y)` outside the window centred on `(x0, y0)`, then `notifyTileAvailable(x, y, z)`
returns `STATUS_KO` for every `z`, in particular for `ZOOM`, and returns the state
unchanged. -/
theorem C6_stale_notification_discarded (env : Env) (s s1 : TileMap) (x0 y0 x y z : Int)
    (i : Nat) (t : Tile)
    (hreach : Reachable env s)
    (hacc : OFFSET < x0 ∧ OFFSET < y0)
    (hmax : x0 < INT_MAX - OFFSET ∧ y0 < INT_MAX - OFFSET)
    (hupd : update env s x0 y0 = .ok s1)
    (_hslot : s.mTiles[i]? = some t) (_hxy : (t.x, t.y) = (x, y))
    (hocc : (x, y) ≠ unset)
    (hout : inWindow x y x0 y0 = false) :
    notifyTileAvailable s1 x y z = (Status.STATUS_KO, s1) := by
  obtain ⟨hinv0, hl⟩ := invariant_of_reachable env s hreach
  rw [update_eq_updateZ env s x0 y0 (Safe_of_bounds x0 y0 hmax) hl] at hupd
  have hinv := GridInv_update env s s1 x0 y0 hinv0 hupd
  obtain ⟨hlx, hly⟩ := updateZ_centre env s s1 x0 y0 hacc hupd
  have hnone : findTile s1 x y z = none := by
    unfold findTile
    rw [List.findIdx?_eq_none_iff]
    intro t1 ht1
    rcases GridInv_slot s1 hinv t1 ht1 with h1 | h1
    · have : ¬ (t1.x = x ∧ t1.y = y) := by
        rintro ⟨rfl, rfl⟩
        exact hocc h1
      simp only [Bool.and_eq_false_imp, Bool.and_eq_true, decide_eq_true_eq, decide_eq_false_iff_not]
      tauto
    · rw [hlx, hly] at h1
      have : ¬ (t1.x = x ∧ t1.y = y) := by
        rintro ⟨rfl, rfl⟩
        rw [h1] at hout
        cases hout
      simp only [Bool.and_eq_false_imp, Bool.and_eq_true, decide_eq_true_eq, decide_eq_false_iff_not]
      tauto
  unfold notifyTileAvailable
  rw [hnone]

set_option maxRecDepth 1000000 in
/-- C6 (amended) at a concrete input: after `init()` and `update(20, 20)`, slot 0 holds
`(14, 14)`; `update(21, 20)` moves the window away from it. -/
theorem C6_stale_notification_discarded_witness :
    Reachable env0 rasterAt20 ∧
    update env0 rasterAt20 21 20 = .ok rasterAt21 ∧
    rasterAt20.mTiles[0]? = some ⟨14, 14, 19,
      [GeoEntity.rasterTile 14 14 19 [DiffuseMap.acquired "damier"]]⟩ ∧
    inWindow 14 14 21 20 = false ∧
    notifyTileAvailable rasterAt21 14 14 env0.ZOOM = (Status.STATUS_KO, rasterAt21) :=
  ⟨reachable_one env0 rasterStyle rasterAt20 20 20 (Or.inr (Or.inr (by decide)))
      (eq_ok_okOr _ _ (by decide)),
    eq_ok_okOr _ _ (by decide), by decide, by decide,
    C6_stale_notification_discarded env0 rasterAt20 rasterAt21 21 20 14 14 env0.ZOOM 0
      ⟨14, 14, 19, [GeoEntity.rasterTile 14 14 19 [DiffuseMap.acquired "damier"]]⟩
      (reachable_one env0 rasterStyle rasterAt20 20 20 (Or.inr (Or.inr (by decide)))
        (eq_ok_okOr _ _ (by decide)))
      (by decide) (by decide) (eq_ok_okOr _ _ (by decide)) (by decide) rfl (by decide)
      (by decide)⟩

/-- C7. An out-of-bound centre is rejected atomically: when `x <= OFFSET` or
`y <= OFFSET`, `update(x, y)` completes and returns the state it was given, so the
centre, every slot, the scene log and the rebuild log are unchanged. -/
theorem C7_out_of_bound_rejected (env : Env) (s : TileMap) (x y : Int)
    (h : x ≤ OFFSET ∨ y ≤ OFFSET) : update env s x y = .ok s := by
  unfold update
  rw [if_pos h]

/-- C7 at the input of the spec: `update(5, 5)` on the state after `init()` and
`update(20, 20)`. -/
theorem C7_out_of_bound_rejected_witness :
    ((5 : Int) ≤ OFFSET ∨ (5 : Int) ≤ OFFSET) ∧ update env0 rasterAt20 5 5 = .ok rasterAt20 :=
  ⟨by decide, C7_out_of_bound_rejected env0 rasterAt20 5 5 (by decide)⟩

/-- C8. A same-centre update is idempotent: when `update(x, y)` completes with state
`s1`, a second `update(x, y)` completes and returns `s1` itself: same slots, same
centre, and no entry added to the rebuild log or to the scene log. -/
theorem C8_same_centre_idempotent (env : Env) (s s1 : TileMap) (x y : Int)
    (h : update env s x y = .ok s1) : update env s1 x y = .ok s1 := by
  unfold update at h
  split at h
  · cases h; exact update_rejected env s x y ‹_›
  · rename_i hacc
    simp only at h
    split at h
    · rename_i hsame
      cases h
      unfold update
      rw [if_neg hacc]
      simp only
      rw [if_pos hsame]
    · split at h
      · cases h
      · cases h
        unfold update
        rw [if_neg hacc]
        simp

set_option maxRecDepth 1000000 in
/-- C8 at a concrete input: `update(20, 20)` twice after `init()`. -/
theorem C8_same_centre_idempotent_witness :
    update env0 initialRaster 20 20 = .ok rasterAt20 ∧
    update env0 rasterAt20 20 20 = .ok rasterAt20 ∧
    rasterAt20.rebuilt.length = 169 :=
  ⟨eq_ok_okOr _ _ (by decide),
    C8_same_centre_idempotent env0 initialRaster rasterAt20 20 20 (eq_ok_okOr _ _ (by decide)),
    by decide⟩

/-- C9. Resource identifier format: `tileSid(x, y, z)` is
"tiles/" ++ ns ++ "/" ++ dec z ++ "/" ++ dec x ++ "/" ++ dec y for a non-empty
namespace `ns` and "tiles/" ++ dec z ++ "/" ++ dec x ++ "/" ++ dec y for the empty
one; namespace "base" with z=3, x=1, y=2 gives "tiles/base/3/1/2" and no namespace
gives "tiles/3/1/2". -/
theorem C9_tileSid_format :
    (∀ (s : TileMap) (x y z : Int),
      tileSid s x y z =
        if s.mNamespace = "" then "tiles/" ++ dec z ++ "/" ++ dec x ++ "/" ++ dec y
        else "tiles/" ++ s.mNamespace ++ "/" ++ dec z ++ "/" ++ dec x ++ "/" ++ dec y) ∧
    tileSid { initial with mNamespace := "base" } 1 2 3 = "tiles/base/3/1/2" ∧
    tileSid initial 1 2 3 = "tiles/3/1/2" :=
  ⟨tileSid_eq, by decide, by decide⟩

/-- C10. Namespaces separate identifiers: two states with different namespaces give
different identifiers to the same `(x, y, z)`. -/
theorem C10_namespaces_separate (s1 s2 : TileMap) (x y z : Int)
    (h : s1.mNamespace ≠ s2.mNamespace) :
    tileSid s1 x y z ≠ tileSid s2 x y z := by
  rw [tileSid_eq, tileSid_eq]
  intro heq
  apply h
  have hslash : "/".length = 1 := rfl
  by_cases h1 : s1.mNamespace = "" <;> by_cases h2 : s2.mNamespace = ""
  · rw [h1, h2]
  · exfalso
    rw [if_pos h1, if_neg h2] at heq
    have := congrArg String.length heq
    simp only [String.length_append] at this
    omega
  · exfalso
    rw [if_neg h1, if_pos h2] at heq
    have := congrArg String.length heq
    simp only [String.length_append] at this
    omega
  · rw [if_neg h1, if_neg h2] at heq
    have := congrArg String.data heq
    simp only [String.data_append, List.append_assoc] at this
    exact String.ext (List.append_cancel_right (List.append_cancel_left this))

/-- C10 at a concrete input: the namespaces "" and "base" at `(1, 2, 3)`. -/
theorem C10_namespaces_separate_witness :
    initial.mNamespace ≠ "base" ∧
    tileSid initial 1 2 3 ≠ tileSid { initial with mNamespace := "base" } 1 2 3 :=
  ⟨by decide, C10_namespaces_separate initial { initial with mNamespace := "base" } 1 2 3
    (by decide)⟩

set_option maxRecDepth 1000000 in
/-- C11. One-column pan: from a state whose 169 slots hold exactly the coordinates
`x` in [4,16], `y` in [4,16] with centre `(10, 10)`, `update(11, 10)` completes when
the style does not fault, and when it completes: the centre is `(11, 10)`;
`updateTile` was called exactly 13 times, for `(17, y, ZOOM)` with `y = 4..16` in that
order; the slots passed are pairwise different and are exactly the slots that held
`x = 4`, and each holds afterwards the coordinate it was called with; every slot that
did not hold `x = 4` keeps its tile, and there are 156 of them. -/
theorem C11_one_column_pan (env : Env) (s : TileMap)
    (hwin : (coords s).Perm (cells 10 10)) (hlx : s.mLastX = 10) (hly : s.mLastY = 10) :
    (FaultFree env s.mStyle → ∃ s1, update env s 11 10 = .ok s1) ∧
    ∀ s1, update env s 11 10 = .ok s1 →
      s1.mLastX = 11 ∧ s1.mLastY = 10 ∧
      (∃ rb, s1.rebuilt = s.rebuilt ++ rb ∧ rb.length = 13 ∧
        rb.map (fun r => (r.x, r.y, r.z)) =
          (List.range 13).map (fun (k : Nat) => ((17 : Int), (4 : Int) + (k : Int), env.ZOOM)) ∧
        (rb.map Rebuild.slot).Nodup ∧
        (∀ i, i ∈ rb.map Rebuild.slot ↔ ∃ t, s.mTiles[i]? = some t ∧ t.x = 4) ∧
        (∀ r ∈ rb, ∃ t, s1.mTiles[r.slot]? = some t ∧ t.x = r.x ∧ t.y = r.y ∧ t.z = r.z)) ∧
      (∀ (i : Nat) (t : Tile), s.mTiles[i]? = some t → t.x ≠ 4 → s1.mTiles[i]? = some t) ∧
      (s.mTiles.filter (fun t => decide (t.x ≠ 4))).length = 156 := by
  have hsafe : Safe 11 10 := Or.inr (Or.inr (by decide))
  have hl : LastSafe s := by unfold LastSafe; rw [hlx, hly]; decide
  rw [update_eq_updateZ env s 11 10 hsafe hl]
  have hacc : OFFSET < (11 : Int) ∧ OFFSET < (10 : Int) := by decide
  have hacc1 : ¬ ((11 : Int) ≤ OFFSET ∨ (10 : Int) ≤ OFFSET) := by decide
  have hwin1 : (coords s).Perm (cells s.mLastX s.mLastY) := by rw [hlx, hly]; exact hwin
  have hq := queue_length_of_window s 11 10 hwin1
  have hE : entering 11 10 10 10 =
      (List.range 13).map (fun (k : Nat) => ((17 : Int), (4 : Int) + (k : Int))) := by decide
  rw [hlx, hly] at hq
  have hslotx : ∀ (i : Nat) (t : Tile), s.mTiles[i]? = some t →
      (inWindow t.x t.y 11 10 = false ↔ t.x = 4) := by
    intro i t ht
    have hmem : (t.x, t.y) ∈ cells 10 10 :=
      hwin.mem_iff.1 (List.mem_map.2 ⟨t, List.getElem?_mem ht, rfl⟩)
    have hin := (inWindow_iff _ _ _ _).1 ((mem_cells 10 10 _).1 hmem)
    rw [Bool.eq_false_iff, Ne, inWindow_iff]
    simp only at hin
    omega
  refine ⟨fun hff => updateZ_total env s 11 10 hff (by rw [hlx, hly]; exact le_of_eq hq.symm),
    fun s1 h => ?_⟩
  obtain ⟨h1, h2⟩ := updateZ_centre env s s1 11 10 hacc h
  have hlog := updateZ_log_any env s s1 11 10 hacc1 h
  have hasg := updateZ_assigned env s s1 11 10 hacc1 h
  rw [hlx, hly] at hlog hasg
  refine ⟨h1, h2, ⟨_, hlog, ?_, ?_, ?_, ?_, ?_⟩, ?_, ?_⟩
  · rw [List.length_zipWith, hq, Nat.min_self, hE]
    simp
  · rw [zipWith_rebuildOf_xyz env.ZOOM _ _ (le_of_eq hq.symm), hE, List.map_map]
    rfl
  · rw [zipWith_rebuildOf_slot env.ZOOM _ _ (le_of_eq hq)]
    exact queueZ_nodup _ _ _
  · intro i
    rw [zipWith_rebuildOf_slot env.ZOOM _ _ (le_of_eq hq), mem_queueZ_iff]
    constructor
    · rintro ⟨t, ht, hout⟩
      exact ⟨t, ht, (hslotx i t ht).1 hout⟩
    · rintro ⟨t, ht, hx⟩
      exact ⟨t, ht, (hslotx i t ht).2 hx⟩
  · intro r hr
    obtain ⟨hz, hzz⟩ := mem_zipWith_rebuildOf env.ZOOM _ _ r hr
    obtain ⟨t, ht, hx, hy, hzt⟩ := hasg _ hz
    exact ⟨t, ht, hx, hy, by rw [hzt, hzz]⟩
  · intro i t ht hx
    apply updateZ_frame env s s1 11 10 i t h ht
    by_contra hcon
    exact hx ((hslotx i t ht).1 (by simpa using hcon))
  · have hf : (s.mTiles.filter (fun t => decide (t.x ≠ 4))).length =
        ((coords s).filter (fun p => decide (p.1 ≠ 4))).length := by
      unfold coords
      rw [List.filter_map, List.length_map]
      rfl
    rw [hf, (hwin.filter _).length_eq]
    decide

set_option maxRecDepth 1000000 in
/-- C11 at a concrete input: the state after `init()`, `update(30, 30)` and
`update(10, 10)`, whose slots hold exactly the window centred on `(10, 10)`. -/
theorem C11_one_column_pan_witness :
    (coords rasterAt10).Perm (cells 10 10) ∧ rasterAt10.mLastX = 10 ∧ rasterAt10.mLastY = 10 ∧
    ((FaultFree env0 rasterAt10.mStyle → ∃ s1, update env0 rasterAt10 11 10 = .ok s1) ∧
    ∀ s1, update env0 rasterAt10 11 10 = .ok s1 →
      s1.mLastX = 11 ∧ s1.mLastY = 10 ∧
      (∃ rb, s1.rebuilt = rasterAt10.rebuilt ++ rb ∧ rb.length = 13 ∧
        rb.map (fun r => (r.x, r.y, r.z)) =
          (List.range 13).map (fun (k : Nat) => ((17 : Int), (4 : Int) + (k : Int), env0.ZOOM)) ∧
        (rb.map Rebuild.slot).Nodup ∧
        (∀ i, i ∈ rb.map Rebuild.slot ↔ ∃ t, rasterAt10.mTiles[i]? = some t ∧ t.x = 4) ∧
        (∀ r ∈ rb, ∃ t, s1.mTiles[r.slot]? = some t ∧ t.x = r.x ∧ t.y = r.y ∧ t.z = r.z)) ∧
      (∀ (i : Nat) (t : Tile), rasterAt10.mTiles[i]? = some t → t.x ≠ 4 → s1.mTiles[i]? = some t) ∧
      (rasterAt10.mTiles.filter (fun t => decide (t.x ≠ 4))).length = 156) ∧
    (update env0 rasterAt10 11 10).toBool = true :=
  ⟨(by decide : coords rasterAt10 = cells 10 10) ▸ List.Perm.refl _, by decide, by decide,
    C11_one_column_pan env0 rasterAt10
      ((by decide : coords rasterAt10 = cells 10 10) ▸ List.Perm.refl _) (by decide) (by decide),
    by decide⟩

/-- C12. RASTER fallback: for a layer of type RASTER whose source exists, the branch of
`updateTile` completes and appends exactly one renderable to the collection,
whatever the fetch returns; its material got exactly one diffuse texture: the one
decoded from the payload when the payload is non-empty, the shared default texture
"damier" when it is empty. -/
theorem C12_raster_fallback (env : Env) (style : Style) (name : String) (src : Source)
    (x y z : Int) (ents : List GeoEntity)
    (hsrc : style.sourceAt name = .ok src) :
    layerStep env style ⟨LayerType.RASTER, name⟩ x y z ents =
      .ok (ents ++ [GeoEntity.rasterTile x y z
        [if src.fetch x y z ≠ [] then DiffuseMap.decoded (src.fetch x y z)
         else DiffuseMap.acquired "damier"]]) := by
  simp only [layerStep, hsrc]
  by_cases h : src.fetch x y z = []
  · simp [h, DEFAULT_TILE_DIFFUSE_MAP]
  · simp [h]

/-- C12 at concrete inputs: a source without data binds "damier", a source with the
payload `[1]` binds the texture decoded from it. -/
theorem C12_raster_fallback_witness :
    rasterStyle.sourceAt "img" = .ok ⟨fun _ _ _ => []⟩ ∧
    layerStep env0 rasterStyle ⟨LayerType.RASTER, "img"⟩ 1 2 3 [] =
      .ok ([] ++ [GeoEntity.rasterTile 1 2 3
        [if (Source.mk (fun _ _ _ => [])).fetch 1 2 3 ≠ [] then
            DiffuseMap.decoded ((Source.mk (fun _ _ _ => [])).fetch 1 2 3)
         else DiffuseMap.acquired "damier"]]) ∧
    extrudeStyle.sourceAt "v" = .ok ⟨fun _ _ _ => [1]⟩ ∧
    layerStep env0 extrudeStyle ⟨LayerType.RASTER, "v"⟩ 1 2 3 [] =
      .ok [GeoEntity.rasterTile 1 2 3 [DiffuseMap.decoded [1]]] :=
  ⟨rfl, C12_raster_fallback env0 rasterStyle "img" ⟨fun _ _ _ => []⟩ 1 2 3 [] rfl, rfl, rfl⟩

/-- C13. The call `setStyle(style)` completes when `style` does not fault, and when it
completes: the style is installed; `updateTile` was called exactly once for every
slot of the pool, in pool order, hence once for every occupied slot, each time with
the coordinate `(x, y, z)` the slot held; every slot has the coordinate it had, and the
centre is unchanged. -/
theorem C13_setStyle_rebuilds_in_place (env : Env) (s : TileMap) (style : Style) :
    (FaultFree env style → ∃ s1, setStyle env s style = .ok s1) ∧
    ∀ s1, setStyle env s style = .ok s1 →
      s1.mStyle = style ∧ xyzs s1 = xyzs s ∧ s1.mLastX = s.mLastX ∧ s1.mLastY = s.mLastY ∧
      ∃ rb, s1.rebuilt = s.rebuilt ++ rb ∧
        rb.map Rebuild.slot = List.range s.mTiles.length ∧
        ∀ r ∈ rb, (xyzs s)[r.slot]? = some (r.x, r.y, r.z) := by
  refine ⟨fun hff => ?_, fun s1 h => ?_⟩
  · apply rebuildAll_total env _ _ hff
    intro i hi
    exact List.mem_range.1 hi
  · obtain ⟨h1, h2, h3, h4, rb, h5, h6, h7⟩ := rebuildAll_ok env _ _ s1 h
    exact ⟨h4, h1, h2, h3, rb, h5, h6, h7⟩

set_option maxRecDepth 1000000 in
/-- C13 at a concrete input: `setStyle` with a RASTER style on the state after
`init()` and `update(10, 10)`. -/
theorem C13_setStyle_rebuilds_in_place_witness :
    (setStyle env0 emptyAt10 rasterStyle).toOption.map (fun s1 =>
      (xyzs s1 == xyzs emptyAt10, s1.mLastX, s1.mLastY,
        (s1.rebuilt.drop emptyAt10.rebuilt.length).map Rebuild.slot == List.range 169,
        (s1.rebuilt.drop emptyAt10.rebuilt.length).map (fun r => (r.x, r.y, r.z))
          == xyzs emptyAt10)) = some (true, 10, 10, true, true) ∧
    ∃ s1, setStyle env0 emptyAt10 rasterStyle = .ok s1 :=
  ⟨by decide,
    (C13_setStyle_rebuilds_in_place env0 emptyAt10 rasterStyle).1 faultFree_rasterStyle⟩

set_option maxRecDepth 1000000 in
/-- C14 (counterexample). After `init()` and `update(10, 10)` the front slot holds
`x = 4` and four slots are unset; `setNamespace("base")` with an empty cache emits 169
requests, four of them `onTileRequest(-1, -1, -1)` for the unset slots. -/
theorem C14_request_for_unset_slot :
    (setNamespace (fun _ => false) emptyAt10 "base").toOption.map
        (fun r => (r.2.length, r.2.count (-1, -1, -1))) = some (169, 4) ∧
    (xyzs emptyAt10).count (-1, -1, -1) = 4 ∧
    emptyAt10.mTiles.head?.map (fun t => t.x) = some 4 := by
  decide

/-- C14 (amended). On a non-empty pool, `setNamespace(ns)` completes, sets the namespace
to `ns` and changes nothing else in the state; when the front slot has `x != -1` it
emits `onTileRequest(x, y, z)` once for every slot of the pool, occupied or unset, in
pool order, whose identifier under the new namespace is not in the cache, and no other
request; when the front slot has `x = -1` it emits no request. -/
theorem C14_setNamespace_requests (hasMap : String → Bool) (s : TileMap) (ns : String)
    (front : Tile) (rest : List Tile) (hpool : s.mTiles = front :: rest) :
    setNamespace hasMap s ns =
      .ok ({ s with mNamespace := ns },
        if front.x ≠ -1 then
          (s.mTiles.filter
            (fun t => !hasMap (tileSid { s with mNamespace := ns } t.x t.y t.z))).map
            (fun t => (t.x, t.y, t.z))
        else []) := by
  unfold setNamespace
  simp only [hpool, List.head?_cons]
  by_cases h : front.x = -1
  · simp [h]
  · simp only [ne_eq, h, not_false_eq_true, if_true]
    rw [updateDiffuseMaps, updateDiffuseMapsLoop_eq]

set_option maxRecDepth 1000000 in
/-- C14 (amended) at a concrete input: the state after `init()` and `update(20, 20)`,
with only the identifier of the front slot in the cache: 168 requests. -/
theorem C14_setNamespace_requests_witness :
    rasterAt20.mTiles =
      ⟨14, 14, 19, [GeoEntity.rasterTile 14 14 19 [DiffuseMap.acquired "damier"]]⟩ ::
        rasterAt20.mTiles.tail ∧
    setNamespace (fun sid => sid == "tiles/base/19/14/14") rasterAt20 "base" =
      .ok ({ rasterAt20 with mNamespace := "base" },
        if (Tile.mk 14 14 19
            [GeoEntity.rasterTile 14 14 19 [DiffuseMap.acquired "damier"]]).x ≠ -1 then
          (rasterAt20.mTiles.filter
            (fun t => !(fun sid => sid == "tiles/base/19/14/14")
              (tileSid { rasterAt20 with mNamespace := "base" } t.x t.y t.z))).map
            (fun t => (t.x, t.y, t.z))
        else []) ∧
    (setNamespace (fun sid => sid == "tiles/base/19/14/14") rasterAt20 "base").toOption.map
      (fun r => (r.2.length, r.2.take 2)) = some (168, [(14, 15, 19), (14, 16, 19)]) :=
  ⟨by decide,
    C14_setNamespace_requests (fun sid => sid == "tiles/base/19/14/14") rasterAt20 "base"
      ⟨14, 14, 19, [GeoEntity.rasterTile 14 14 19 [DiffuseMap.acquired "damier"]]⟩
      rasterAt20.mTiles.tail (by decide),
    by decide⟩

/-- C15. The lookup `findTile(x, y, z)` returns null exactly when no slot of the pool
has coordinate `(x, y, z)`, returns a slot exactly when some slot has it, and the slot
returned is the first one in pool order whose `x`, `y` and `z` all equal the
arguments. -/
theorem C15_findTile_exact_match (s : TileMap) (x y z : Int) :
    (findTile s x y z = none ↔ ∀ t ∈ s.mTiles, ¬ (t.x = x ∧ t.y = y ∧ t.z = z)) ∧
    ((∃ i, findTile s x y z = some i) ↔ ∃ t ∈ s.mTiles, t.x = x ∧ t.y = y ∧ t.z = z) ∧
    (∀ i, findTile s x y z = some i ↔
      ∃ t, s.mTiles[i]? = some t ∧ (t.x = x ∧ t.y = y ∧ t.z = z) ∧
        ∀ (j : Nat) (u : Tile), j < i → s.mTiles[j]? = some u →
          ¬ (u.x = x ∧ u.y = y ∧ u.z = z)) := by
  have hnone : findTile s x y z = none ↔ ∀ t ∈ s.mTiles, ¬ (t.x = x ∧ t.y = y ∧ t.z = z) := by
    unfold findTile
    rw [List.findIdx?_eq_none_iff]
    constructor
    · intro h t ht hm
      have := h t ht
      simp [hm.1, hm.2.1, hm.2.2] at this
    · intro h t ht
      have := h t ht
      simp only [Bool.and_eq_false_imp, Bool.and_eq_true, decide_eq_true_eq,
        decide_eq_false_iff_not]
      tauto
  refine ⟨hnone, ?_, ?_⟩
  · constructor
    · rintro ⟨i, hi⟩
      by_contra hcon
      have : findTile s x y z = none := hnone.2 (fun t ht hm => hcon ⟨t, ht, hm⟩)
      rw [this] at hi
      cases hi
    · rintro ⟨t, ht, hm⟩
      cases hf : findTile s x y z with
      | none => exact absurd hm (hnone.1 hf t ht)
      | some i => exact ⟨i, rfl⟩
  · intro i
    unfold findTile
    rw [List.findIdx?_eq_some_iff_getElem]
    constructor
    · rintro ⟨hi, hp, hbefore⟩
      refine ⟨s.mTiles[i], List.getElem?_eq_getElem hi, by simpa [and_assoc] using hp, ?_⟩
      intro j u hj hu hm
      have hjl : j < s.mTiles.length := Nat.lt_trans hj hi
      rw [List.getElem?_eq_getElem hjl] at hu
      cases hu
      have := hbefore j hj
      simp [hm.1, hm.2.1, hm.2.2] at this
    · rintro ⟨t, ht, hm, hbefore⟩
      obtain ⟨hi, hti⟩ := List.getElem?_eq_some_iff.1 ht
      refine ⟨hi, by simp [hti, hm.1, hm.2.1, hm.2.2], ?_⟩
      intro j hj
      have := hbefore j _ hj (List.getElem?_eq_getElem (Nat.lt_trans hj hi))
      simp only [Bool.and_eq_true, decide_eq_true_eq]
      tauto

set_option maxRecDepth 1000000 in
/-- C16 (counterexample). After `init()` and `update(20, 20)`, the call
`update(2147483647, 20)` is accepted; the 169 coordinates of the new window are all
outside the old one and all 169 slots are queued, so the queue is long enough; the call
completes and commits the centre, and `updateTile` was not called once: the bound
`x0 + OFFSET` wrapped below `x0 - OFFSET` and the second loop did not run. -/
theorem C16_no_reassignment_after_wrap :
    (OFFSET < (2147483647 : Int) ∧ OFFSET < (20 : Int)) ∧
    (entering 2147483647 20 rasterAt20.mLastX rasterAt20.mLastY).length = 169 ∧
    (recycleQueue rasterAt20.mTiles 2147483647 20).length = 169 ∧
    (rasterAt20.mTiles.filter (fun t => !inWindow t.x t.y 2147483647 20)).length = 169 ∧
    (List.zipWith (rebuildOf env0.ZOOM) (recycleQueue rasterAt20.mTiles 2147483647 20)
      (entering 2147483647 20 rasterAt20.mLastX rasterAt20.mLastY)).length = 169 ∧
    (update env0 rasterAt20 2147483647 20).toOption.map
        (fun s1 => (decide (s1.rebuilt = rasterAt20.rebuilt), s1.mLastX, s1.mLastY)) =
      some (true, 2147483647, 20) := by
  decide

/-- C16 (amended). Deterministic reassignment order: for an accepted `update(x0, y0)`
with `x0, y0 < INT_MAX - OFFSET`, from a state whose last centre is at least `OFFSET`
away from `INT_MIN` and `INT_MAX`, whose recycle queue is at least as long as the list
of coordinates of the new window outside the old window, the call completes when the
style does not fault, and when it completes the calls of `updateTile` it made are, in
order, the pairs of the i-th queued slot (pool order, outside the new window before the
call) with the i-th such coordinate (`x` outer, `y` inner), at zoom `ZOOM`, and no
others; each of these slots holds its coordinate afterwards. -/
theorem C16_reassignment_order (env : Env) (s : TileMap) (x0 y0 : Int)
    (hacc : OFFSET < x0 ∧ OFFSET < y0)
    (hmax : x0 < INT_MAX - OFFSET ∧ y0 < INT_MAX - OFFSET)
    (hl : LastSafe s)
    (hlen : (entering x0 y0 s.mLastX s.mLastY).length ≤ (recycleQueue s.mTiles x0 y0).length) :
    (FaultFree env s.mStyle → ∃ s1, update env s x0 y0 = .ok s1) ∧
    ∀ s1, update env s x0 y0 = .ok s1 →
      s1.rebuilt = s.rebuilt ++ List.zipWith (rebuildOf env.ZOOM)
        (recycleQueue s.mTiles x0 y0) (entering x0 y0 s.mLastX s.mLastY) ∧
      ∀ ic ∈ List.zip (recycleQueue s.mTiles x0 y0) (entering x0 y0 s.mLastX s.mLastY),
        ∃ t, s1.mTiles[ic.1]? = some t ∧ t.x = ic.2.1 ∧ t.y = ic.2.2 ∧ t.z = env.ZOOM := by
  have hacc1 : ¬ (x0 ≤ OFFSET ∨ y0 ≤ OFFSET) := by omega
  have hq : recycleQueue s.mTiles x0 y0 = queueZ s.mTiles x0 y0 := by
    apply recycleQueue_eq_queueZ
    · rw [OFFSET_eq] at *; unfold INT_MIN; omega
    · rw [OFFSET_eq] at *; unfold INT_MIN; omega
  rw [update_eq_updateZ env s x0 y0 (Safe_of_bounds x0 y0 hmax) hl, hq]
  rw [hq] at hlen
  refine ⟨fun hff => updateZ_total env s x0 y0 hff hlen, fun s1 h => ?_⟩
  exact ⟨updateZ_log_any env s s1 x0 y0 hacc1 h, updateZ_assigned env s s1 x0 y0 hacc1 h⟩

set_option maxRecDepth 1000000 in
/-- C16 (amended) at a concrete input: `update(21, 20)` after `init()` and
`update(20, 20)` pairs the slots 0..12 with `(27, 14)`..`(27, 26)`. -/
theorem C16_reassignment_order_witness :
    (OFFSET < (21 : Int) ∧ OFFSET < (20 : Int)) ∧
    ((21 : Int) < INT_MAX - OFFSET ∧ (20 : Int) < INT_MAX - OFFSET) ∧
    LastSafe rasterAt20 ∧
    (entering 21 20 rasterAt20.mLastX rasterAt20.mLastY).length ≤
      (recycleQueue rasterAt20.mTiles 21 20).length ∧
    update env0 rasterAt20 21 20 = .ok rasterAt21 ∧
    (rasterAt21.rebuilt = rasterAt20.rebuilt ++ List.zipWith (rebuildOf env0.ZOOM)
        (recycleQueue rasterAt20.mTiles 21 20)
        (entering 21 20 rasterAt20.mLastX rasterAt20.mLastY) ∧
      ∀ ic ∈ List.zip (recycleQueue rasterAt20.mTiles 21 20)
          (entering 21 20 rasterAt20.mLastX rasterAt20.mLastY),
        ∃ t, rasterAt21.mTiles[ic.1]? = some t ∧ t.x = ic.2.1 ∧ t.y = ic.2.2 ∧
          t.z = env0.ZOOM) ∧
    List.zip (recycleQueue rasterAt20.mTiles 21 20)
        (entering 21 20 rasterAt20.mLastX rasterAt20.mLastY) =
      (List.range 13).map (fun (k : Nat) => (k, ((27 : Int), (14 : Int) + (k : Int)))) :=
  ⟨by decide, by decide, by unfold LastSafe; decide, by decide, eq_ok_okOr _ _ (by decide),
    (C16_reassignment_order env0 rasterAt20 21 20 (by decide) (by decide)
      (by unfold LastSafe; decide) (by decide)).2 rasterAt21 (eq_ok_okOr _ _ (by decide)),
    by decide⟩

set_option maxRecDepth 1000000 in
/-- C17 (counterexample). After `init()` and `update(20, 20)` the 169 slots hold
exactly the window centred on `(20, 20)`; `update(2147483647, 20)` is accepted and
completes, no cell is common to the two windows, and afterwards the centre is
`(2147483647, 20)` while the slots still hold the window centred on `(20, 20)` and
`updateTile` was not called once, against the 169 calls of the claim. -/
theorem C17_window_lost_after_wrap :
    coords rasterAt20 = cells rasterAt20.mLastX rasterAt20.mLastY ∧
    (coords rasterAt20).Nodup ∧
    (OFFSET < (2147483647 : Int) ∧ OFFSET < (20 : Int)) ∧
    ((cells 2147483647 20).filter
      (fun c => inWindow c.1 c.2 rasterAt20.mLastX rasterAt20.mLastY)).length = 0 ∧
    (update env0 rasterAt20 2147483647 20).toOption.map
        (fun s1 => (decide (coords s1 = cells 20 20), decide ((14, 14) ∈ cells 2147483647 20),
          s1.mLastX, s1.mLastY, s1.rebuilt.length - rasterAt20.rebuilt.length)) =
      some (true, false, 2147483647, 20, 0) := by
  decide

/-- C17 (amended). The window invariant is kept by one step: when the slots hold
pairwise distinct coordinates that are exactly the window centred on the last centre,
and the last centre is at least `OFFSET` away from `INT_MIN` and `INT_MAX`, an accepted
`update(x0, y0)` with `x0, y0 < INT_MAX - OFFSET` completes when the style does not
fault, and when it completes the slots hold pairwise distinct coordinates that are
exactly the window centred on `(x0, y0)`, the centre is `(x0, y0)`, every queued slot
was passed to `updateTile` (the queue ends empty), and the number of `updateTile` calls
is 169 minus the number of cells common to the two windows. -/
theorem C17_window_step (env : Env) (s : TileMap) (x0 y0 : Int)
    (hwin : (coords s).Perm (cells s.mLastX s.mLastY))
    (hl : LastSafe s)
    (hacc : OFFSET < x0 ∧ OFFSET < y0)
    (hmax : x0 < INT_MAX - OFFSET ∧ y0 < INT_MAX - OFFSET) :
    (FaultFree env s.mStyle → ∃ s1, update env s x0 y0 = .ok s1) ∧
    ∀ s1, update env s x0 y0 = .ok s1 →
      (coords s1).Perm (cells x0 y0) ∧ (coords s1).Nodup ∧ s1.mLastX = x0 ∧ s1.mLastY = y0 ∧
      ∃ rb, s1.rebuilt = s.rebuilt ++ rb ∧
        rb.map Rebuild.slot = recycleQueue s.mTiles x0 y0 ∧
        rb.length =
          169 - ((cells x0 y0).filter (fun c => inWindow c.1 c.2 s.mLastX s.mLastY)).length := by
  have hacc1 : ¬ (x0 ≤ OFFSET ∨ y0 ≤ OFFSET) := by omega
  have hrq : recycleQueue s.mTiles x0 y0 = queueZ s.mTiles x0 y0 := by
    apply recycleQueue_eq_queueZ
    · rw [OFFSET_eq] at *; unfold INT_MIN; omega
    · rw [OFFSET_eq] at *; unfold INT_MIN; omega
  rw [update_eq_updateZ env s x0 y0 (Safe_of_bounds x0 y0 hmax) hl, hrq]
  have hq := queue_length_of_window s x0 y0 hwin
  refine ⟨fun hff => updateZ_total env s x0 y0 hff (le_of_eq hq.symm), fun s1 h => ?_⟩
  obtain ⟨hlx, hly⟩ := updateZ_centre env s s1 x0 y0 hacc h
  have hw := updateZ_window env s s1 x0 y0 hwin hacc1 h
  refine ⟨hw, hw.nodup_iff.2 (cells_nodup x0 y0), hlx, hly, _,
    updateZ_log_any env s s1 x0 y0 hacc1 h, ?_, ?_⟩
  · exact zipWith_rebuildOf_slot env.ZOOM _ _ (le_of_eq hq)
  · rw [List.length_zipWith, hq, Nat.min_self, entering_length_eq]

set_option maxRecDepth 1000000 in
/-- C17 (amended) at a concrete input: `update(11, 10)` from the state whose slots hold
the window centred on `(10, 10)`; 156 cells are common to the two windows. -/
theorem C17_window_step_witness :
    (coords rasterAt10).Perm (cells rasterAt10.mLastX rasterAt10.mLastY) ∧
    LastSafe rasterAt10 ∧
    (OFFSET < (11 : Int) ∧ OFFSET < (10 : Int)) ∧
    ((11 : Int) < INT_MAX - OFFSET ∧ (10 : Int) < INT_MAX - OFFSET) ∧
    update env0 rasterAt10 11 10 = .ok (okOr (update env0 rasterAt10 11 10) rasterAt10) ∧
    ((coords (okOr (update env0 rasterAt10 11 10) rasterAt10)).Perm (cells 11 10) ∧
      (coords (okOr (update env0 rasterAt10 11 10) rasterAt10)).Nodup ∧
      (okOr (update env0 rasterAt10 11 10) rasterAt10).mLastX = 11 ∧
      (okOr (update env0 rasterAt10 11 10) rasterAt10).mLastY = 10 ∧
      ∃ rb, (okOr (update env0 rasterAt10 11 10) rasterAt10).rebuilt = rasterAt10.rebuilt ++ rb ∧
        rb.map Rebuild.slot = recycleQueue rasterAt10.mTiles 11 10 ∧
        rb.length = 169 - ((cells 11 10).filter
          (fun c => inWindow c.1 c.2 rasterAt10.mLastX rasterAt10.mLastY)).length) ∧
    ((cells 11 10).filter
      (fun c => inWindow c.1 c.2 rasterAt10.mLastX rasterAt10.mLastY)).length = 156 :=
  ⟨(by decide : coords rasterAt10 = cells rasterAt10.mLastX rasterAt10.mLastY) ▸ List.Perm.refl _,
    by unfold LastSafe; decide, by decide, by decide, eq_ok_okOr _ _ (by decide),
    (C17_window_step env0 rasterAt10 11 10
      ((by decide : coords rasterAt10 = cells rasterAt10.mLastX rasterAt10.mLastY) ▸
        List.Perm.refl _) (by unfold LastSafe; decide) (by decide) (by decide)).2 _
      (eq_ok_okOr _ _ (by decide)),
    by decide⟩

set_option maxRecDepth 1000000 in
/-- C18 (counterexample). From `init()`, `update(2147483641, 20)` is accepted; 169
slots are outside the new window and 169 coordinates of the new window are outside the
old one; `x0 + OFFSET` is `INT_MAX`, the test `x <= x0 + OFFSET` never fails, and after
169 reassignments `front()` is executed on an empty queue. Also, after `init()`,
`update(20, 20)` and `update(2147483647, 20)`, which both complete, `update(20, 20)`
executes `front()` on an empty queue. -/
theorem C18_queue_underflows_at_int_max :
    (OFFSET < (2147483641 : Int) ∧ OFFSET < (20 : Int)) ∧
    (entering 2147483641 20 initial.mLastX initial.mLastY).length = 169 ∧
    (initial.mTiles.filter (fun t => !inWindow t.x t.y 2147483641 20)).length = 169 ∧
    (recycleQueue initial.mTiles 2147483641 20).length = 169 ∧
    faultOf (update env0 initial 2147483641 20) = some Fault.emptyQueue ∧
    (run env0 initialRaster [(20, 20), (2147483647, 20)]).toBool = true ∧
    faultOf (run env0 initialRaster [(20, 20), (2147483647, 20), (20, 20)]) =
      some Fault.emptyQueue := by
  decide

/-- C18 (amended). The recycle queue never underflows: in a state reached from `init()`
by `update` calls whose accepted centres have both coordinates below
`INT_MAX - OFFSET`, for an accepted `update(x0, y0)` with `x0, y0 < INT_MAX - OFFSET`
the slots outside the new window are at least as many as the coordinates of the new
window outside the old one, the call does not end with the fault of `front()` on an
empty queue, and it completes when the style does not fault. -/
theorem C18_queue_never_underflows (env : Env) (s : TileMap) (x0 y0 : Int)
    (hreach : Reachable env s) (hacc : OFFSET < x0 ∧ OFFSET < y0)
    (hmax : x0 < INT_MAX - OFFSET ∧ y0 < INT_MAX - OFFSET) :
    (entering x0 y0 s.mLastX s.mLastY).length ≤ (recycleQueue s.mTiles x0 y0).length ∧
      update env s x0 y0 ≠ .error .emptyQueue ∧
      (FaultFree env s.mStyle → ∃ s1, update env s x0 y0 = .ok s1) := by
  have hacc1 : ¬ (x0 ≤ OFFSET ∨ y0 ≤ OFFSET) := by omega
  obtain ⟨⟨hlen, occ, n, hocc, hnd, hin⟩, hl⟩ := invariant_of_reachable env s hreach
  have hrq : recycleQueue s.mTiles x0 y0 = queueZ s.mTiles x0 y0 := by
    apply recycleQueue_eq_queueZ
    · rw [OFFSET_eq] at *; unfold INT_MIN; omega
    · rw [OFFSET_eq] at *; unfold INT_MIN; omega
  rw [update_eq_updateZ env s x0 y0 (Safe_of_bounds x0 y0 hmax) hl, hrq]
  have hle : (entering x0 y0 s.mLastX s.mLastY).length ≤
      (queueZ s.mTiles x0 y0).length := by
    rw [queueZ_length, hocc]
    apply entering_le_queue x0 y0 s.mLastX s.mLastY occ n (unset_stale x0 y0 hacc1) _ hnd hin
    rw [← hocc, coords_length, hlen]
  exact ⟨hle, updateZ_no_underflow env s x0 y0 hle, fun hff => updateZ_total env s x0 y0 hff hle⟩

set_option maxRecDepth 1000000 in
/-- C18 (amended) at a concrete input: `update(21, 20)` after `init()` and
`update(20, 20)`. -/
theorem C18_queue_never_underflows_witness :
    Reachable env0 rasterAt20 ∧ (OFFSET < (21 : Int) ∧ OFFSET < (20 : Int)) ∧
    ((21 : Int) < INT_MAX - OFFSET ∧ (20 : Int) < INT_MAX - OFFSET) ∧
    ((entering 21 20 rasterAt20.mLastX rasterAt20.mLastY).length ≤
        (recycleQueue rasterAt20.mTiles 21 20).length ∧
      update env0 rasterAt20 21 20 ≠ .error .emptyQueue ∧
      (FaultFree env0 rasterAt20.mStyle → ∃ s1, update env0 rasterAt20 21 20 = .ok s1)) :=
  ⟨reachable_one env0 rasterStyle rasterAt20 20 20 (Or.inr (Or.inr (by decide)))
      (eq_ok_okOr _ _ (by decide)),
    by decide, by decide,
    C18_queue_never_underflows env0 rasterAt20 21 20
      (reachable_one env0 rasterStyle rasterAt20 20 20 (Or.inr (Or.inr (by decide)))
        (eq_ok_okOr _ _ (by decide)))
      (by decide) (by decide)⟩

set_option maxRecDepth 1000000 in
/-- C19 (counterexample). The calls `init()`, `update(20, 20)` and
`update(2147483647, 20)` complete; in the state they reach the centre is
`(2147483647, 20)` and slot 0 still holds `(14, 14)`, which is not the unset coordinate
and is outside the window centred on `(2147483647, 20)`. -/
theorem C19_stray_tile_after_wrap :
    run env0 initialRaster [(20, 20), (2147483647, 20)] = .ok rasterAtMax ∧
    rasterAtMax.mLastX = 2147483647 ∧ rasterAtMax.mLastY = 20 ∧
    rasterAtMax.mTiles[0]? = some ⟨14, 14, 19,
      [GeoEntity.rasterTile 14 14 19 [DiffuseMap.acquired "damier"]]⟩ ∧
    ¬ ((14 : Int) = -1 ∧ (14 : Int) = -1) ∧
    inWindow 14 14 rasterAtMax.mLastX rasterAtMax.mLastY = false ∧
    isInRange 14 14 rasterAtMax.mLastX rasterAtMax.mLastY = false :=
  ⟨eq_ok_okOr _ _ (by decide), by decide, by decide, by decide, by decide, by decide,
    by decide⟩

/-- C19 (amended). No duplicate and no stray tiles: in a state reached from `init()` by
`update` calls whose accepted centres have both coordinates below `INT_MAX - OFFSET`,
the pool has exactly 169 slots, every slot is at the unset coordinate `(-1, -1)` or
holds a coordinate inside the window centred on the last centre, for `isInRange` as
well as in exact arithmetic, and two different slots that are not unset hold different
coordinates. -/
theorem C19_no_duplicate_no_stray (env : Env) (s : TileMap) (hreach : Reachable env s) :
    s.mTiles.length = 169 ∧
    (∀ t ∈ s.mTiles,
      (t.x = -1 ∧ t.y = -1) ∨ (inWindow t.x t.y s.mLastX s.mLastY = true ∧
        isInRange t.x t.y s.mLastX s.mLastY = true)) ∧
    (∀ (i j : Nat) (ti tj : Tile), s.mTiles[i]? = some ti → s.mTiles[j]? = some tj →
      (ti.x, ti.y) ≠ unset → (tj.x, tj.y) ≠ unset → (ti.x, ti.y) = (tj.x, tj.y) → i = j) := by
  obtain ⟨hinv, hl⟩ := invariant_of_reachable env s hreach
  refine ⟨hinv.1, ?_, ?_⟩
  · intro t ht
    rcases GridInv_slot s hinv t ht with h | h
    · left
      simpa [unset] using h
    · exact Or.inr ⟨h, by rw [isInRange_eq_inWindow _ _ _ _ hl.1 hl.2]; exact h⟩
  · obtain ⟨_, occ, n, hocc, hnd, _⟩ := hinv
    have hidx : ∀ (i : Nat) (t : Tile), s.mTiles[i]? = some t → (t.x, t.y) ≠ unset →
        occ[i]? = some (t.x, t.y) := by
      intro i t ht hne
      have hc : (coords s)[i]? = some (t.x, t.y) := by simp [coords, ht]
      rw [hocc] at hc
      by_cases hi : i < occ.length
      · rw [List.getElem?_append_left hi] at hc
        exact hc
      · exfalso
        rw [List.getElem?_append_right (by omega)] at hc
        exact hne (List.eq_of_mem_replicate (List.getElem?_mem hc))
    intro i j ti tj hi hj hni hnj heq
    have h1 := hidx i ti hi hni
    have h2 := hidx j tj hj hnj
    have hlt : i < occ.length := by
      by_contra hcon
      rw [List.getElem?_eq_none (by omega)] at h1
      cases h1
    exact List.getElem?_inj hlt hnd (by rw [h1, h2, heq])

set_option maxRecDepth 1000000 in
/-- C19 (amended) at a concrete input: the state after `init()` and `update(10, 10)`,
in which four slots are unset. -/
theorem C19_no_duplicate_no_stray_witness :
    Reachable env0 emptyAt10 ∧
    (emptyAt10.mTiles.length = 169 ∧
      (∀ t ∈ emptyAt10.mTiles,
        (t.x = -1 ∧ t.y = -1) ∨ (inWindow t.x t.y emptyAt10.mLastX emptyAt10.mLastY = true ∧
          isInRange t.x t.y emptyAt10.mLastX emptyAt10.mLastY = true)) ∧
      (∀ (i j : Nat) (ti tj : Tile), emptyAt10.mTiles[i]? = some ti →
        emptyAt10.mTiles[j]? = some tj → (ti.x, ti.y) ≠ unset → (tj.x, tj.y) ≠ unset →
        (ti.x, ti.y) = (tj.x, tj.y) → i = j)) :=
  ⟨reachable_one env0 emptyStyle emptyAt10 10 10 (Or.inr (Or.inr (by decide)))
      (eq_ok_okOr _ _ (by decide)),
    C19_no_duplicate_no_stray env0 emptyAt10
      (reachable_one env0 emptyStyle emptyAt10 10 10 (Or.inr (Or.inr (by decide)))
        (eq_ok_okOr _ _ (by decide)))⟩

/-- C20. Identifiers do not collide across tiles: under one namespace,
`tileSid(x1, y1, z1) = tileSid(x2, y2, z2)` implies `x1 = x2`, `y1 = y2` and
`z1 = z2`. -/
theorem C20_identifiers_do_not_collide (s : TileMap) (x1 y1 z1 x2 y2 z2 : Int)
    (h : tileSid s x1 y1 z1 = tileSid s x2 y2 z2) : x1 = x2 ∧ y1 = y2 ∧ z1 = z2 := by
  have hslash : "/".data = ['/'] := rfl
  have key : (dec z1).data ++ '/' :: ((dec x1).data ++ '/' :: (dec y1).data) =
      (dec z2).data ++ '/' :: ((dec x2).data ++ '/' :: (dec y2).data) := by
    rw [tileSid_eq, tileSid_eq] at h
    by_cases hns : s.mNamespace = ""
    · rw [if_pos hns, if_pos hns] at h
      have := congrArg String.data h
      simp only [String.data_append, List.append_assoc, hslash] at this
      simpa using List.append_cancel_left this
    · rw [if_neg hns, if_neg hns] at h
      have := congrArg String.data h
      simp only [String.data_append, List.append_assoc, hslash] at this
      simpa using List.append_cancel_left (List.append_cancel_left this)
  obtain ⟨hz, hrest⟩ := split_at_separator '/' _ _ _ _ (dec_no_slash z1) (dec_no_slash z2) key
  obtain ⟨hx, hy⟩ := split_at_separator '/' _ _ _ _ (dec_no_slash x1) (dec_no_slash x2) hrest
  exact ⟨dec_injective _ _ (String.ext hx), dec_injective _ _ (String.ext hy),
    dec_injective _ _ (String.ext hz)⟩

/-- C20 at a concrete input: the namespace "base" and the coordinate `(1, 2, 3)`. -/
theorem C20_identifiers_do_not_collide_witness :
    tileSid { initial with mNamespace := "base" } 1 2 3 =
      tileSid { initial with mNamespace := "base" } 1 2 3 ∧
    ((1 : Int) = 1 ∧ (2 : Int) = 2 ∧ (3 : Int) = 3) :=
  ⟨rfl, C20_identifiers_do_not_collide { initial with mNamespace := "base" } 1 2 3 1 2 3 rfl⟩

end dma
